import Mathlib

set_option maxHeartbeats 2000000

/-!
# Verification of the coverage-improvement job orchestration engine

A shallow embedding of the TypeScript backend that drives coverage-analysis
and test-improvement jobs (`JobProcessor`, `CoverageService`,
`ImprovementService`, the `Job` entity, and the pure helper functions they
use), together with theorems settling the frozen claims about it.

Modelling conventions:
* Coverage percentages are represented exactly, in integer hundredths of a
  percent ("centi-percent", `ℤ`): a stored percentage of 53.33% is `5333`.
  The specification fixes percentages to at most one decimal and the code's
  aggregate `Math.round(x * 100 * 100) / 100` to exactly two decimals, so
  this scaling is exact.  The configured threshold (default 80) is `8000`.
* Strings are processed over `List Char`; JS `String.prototype.endsWith`,
  `includes`, first-occurrence `replace`, and Node `path.basename/dirname`
  are implemented over character lists.
* Fallible operations return `Except String`; a thrown JS exception is an
  `Except.error` carrying the message.
* External collaborators (git, package manager, test runner, AI subprocess,
  coverage-report artifacts, GitHub API) are oracles supplied in an
  environment record, as the spec treats them as out-of-scope collaborators.
  The persistence engine is explicitly out of scope in the spec ("a simple
  keyed-record store"), so record saves are modelled as infallible state
  updates.
-/

/-! ## Character-list string utilities (JS / Node semantics) -/

/-- JS `String.prototype.endsWith` over character lists. -/
def strEndsWith (s suffix : String) : Bool :=
  List.isSuffixOf suffix.data s.data

/-- Does `pat` occur as a prefix of some suffix of `s`?  (JS `includes`.) -/
def listHasInfix (pat : List Char) : List Char → Bool
  | [] => List.isPrefixOf pat []
  | c :: rest => List.isPrefixOf pat (c :: rest) || listHasInfix pat rest

/-- JS `String.prototype.includes`. -/
def strIncludes (s pat : String) : Bool :=
  listHasInfix pat.data s.data

/-- Replace the first occurrence of `pat` (nonempty) in `s` by `rep`:
JS `String.prototype.replace` with a string pattern. -/
def replaceFirstL (pat rep : List Char) : List Char → List Char
  | [] => []
  | c :: rest =>
    if List.isPrefixOf pat (c :: rest) then rep ++ (c :: rest).drop pat.length
    else c :: replaceFirstL pat rep rest

/-- JS first-occurrence `replace` on strings. -/
def replaceFirst (s pat rep : String) : String :=
  ⟨replaceFirstL pat.data rep.data s.data⟩

/-- Split a character list on a separator character. -/
def splitOnChar (sep : Char) : List Char → List (List Char)
  | [] => [[]]
  | c :: rest =>
    let r := splitOnChar sep rest
    if c = sep then [] :: r
    else match r with
      | [] => [[c]]
      | seg :: segs => (c :: seg) :: segs

/-- Node `path.basename`: the last `/`-separated component. -/
def basename (p : String) : String :=
  match (splitOnChar '/' p.data).getLast? with
  | some seg => ⟨seg⟩
  | none => p

/-- Node `path.dirname`: everything before the last `/`-separated component,
or `"."` when there is no directory part. -/
def dirname (p : String) : String :=
  match splitOnChar '/' p.data with
  | [] => "."
  | [_] => "."
  | segs => ⟨(List.intercalate ['/'] (segs.dropLast))⟩

/-- Node `path.join` restricted to joining two relative segments. -/
def joinPath (pre name : String) : String :=
  if pre = "" then name else pre ++ "/" ++ name

/-! ## File-classification helpers (from `JobProcessor`) -/

/-- `JobProcessor.isTestFile`: recognized test-file suffixes. -/
def isTestFile (filePath : String) : Bool :=
  strEndsWith filePath ".test.ts" || strEndsWith filePath ".spec.ts" ||
  strEndsWith filePath ".test.js" || strEndsWith filePath ".spec.js"

/-- `JobProcessor.isSourceTypeScriptFile`. -/
def isSourceTypeScriptFile (filename : String) : Bool :=
  if !strEndsWith filename ".ts" then false
  else if strEndsWith filename ".test.ts" || strEndsWith filename ".spec.ts" then false
  else if strEndsWith filename ".d.ts" then false
  else true

/-- `JobProcessor.shouldSkipDirectory`: standard build/dependency directories. -/
def shouldSkipDirectory (name : String) : Bool :=
  ["node_modules", ".git", "dist", "build", "coverage", ".next", ".nuxt", "__mocks__"].contains name

/-! ## The checkout filesystem and `findAllTypeScriptFiles` -/

mutual
/-- A directory entry of a checkout: a plain file or a subdirectory. -/
inductive FsEntry where
  | file : String → FsEntry
  | dir : String → FsForest → FsEntry

/-- An ordered directory listing. -/
inductive FsForest where
  | nil : FsForest
  | cons : FsEntry → FsForest → FsForest
end

mutual
/-- One step of `JobProcessor.findAllTypeScriptFiles`: the skip-directory
check is applied to every entry name (files included, as in the source),
directories recurse, and source TypeScript files are collected. -/
def walkEntry (pre : String) : FsEntry → List String
  | .file n =>
    if shouldSkipDirectory n then []
    else if isSourceTypeScriptFile n then [joinPath pre n] else []
  | .dir n ch =>
    if shouldSkipDirectory n then []
    else walkForest (joinPath pre n) ch

/-- Walk an ordered directory listing, concatenating results in entry order. -/
def walkForest (pre : String) : FsForest → List String
  | .nil => []
  | .cons e rest => walkEntry pre e ++ walkForest pre rest
end

/-- `JobProcessor.findAllTypeScriptFiles` applied to the checkout root. -/
def findAllTypeScriptFiles (root : FsForest) : List String :=
  walkForest "" root

/-! ## Coverage reports and the aggregate recomputation -/

/-- One file's entry in a parsed coverage report (percentages in
centi-percent). -/
structure FileCov where
  path : String
  linesCovered : ℕ
  linesTotal : ℕ
  percentage : ℤ
  uncoveredLines : List ℕ
deriving DecidableEq, Repr

/-- A normalized coverage report (`totalCoverage` in centi-percent). -/
structure CoverageReport where
  files : List FileCov
  totalCoverage : ℤ
deriving DecidableEq, Repr

/-- Sum of `linesCovered` (`files.reduce((sum, f) => sum + f.linesCovered, 0)`). -/
def totalCoveredLines (files : List FileCov) : ℕ :=
  files.foldl (fun sum f => sum + f.linesCovered) 0

/-- Sum of `linesTotal`. -/
def totalLinesOf (files : List FileCov) : ℕ :=
  files.foldl (fun sum f => sum + f.linesTotal) 0

/-- `Math.round((totalCovered / totalLines) * 100 * 100) / 100` in
centi-percent: for nonnegative integers this JS expression equals
`⌊(10000·c/t) + 1/2⌋ = (20000·c + t) / (2·t)` by natural division. -/
def roundedAggregate (c t : ℕ) : ℤ :=
  ((20000 * c + t) / (2 * t) : ℕ)

/-- Lines 179–182 of `JobProcessor.executeAnalysisJob` (and 128–133 of
`CoverageService.analyze`): recompute the aggregate coverage from the sums
of covered and total lines. -/
def recalcTotalCoverage (files : List FileCov) : ℤ :=
  let totalCovered := totalCoveredLines files
  let totalLines := totalLinesOf files
  if totalLines > 0 then roundedAggregate totalCovered totalLines else 0

/-- Lines 164–177: add a synthetic `0%, uncoveredLines = [1]` entry for every
enumerated TypeScript file absent from the parsed report.  The set of covered
paths is computed once, before any entry is appended, as in the source. -/
def addMissingFiles (allTsFiles : List String) (files : List FileCov) : List FileCov :=
  let coveredPaths := files.map (fun f => f.path)
  files ++ (allTsFiles.filter (fun p => !coveredPaths.contains p)).map
    (fun p => { path := p, linesCovered := 0, linesTotal := 1, percentage := 0,
                uncoveredLines := [1] })

/-- The comparator `(a, b) => a.percentage - b.percentage` sorts ascending by
percentage; modelled by a sort with the corresponding ordering relation. -/
def sortByPercentage (files : List FileCov) : List FileCov :=
  List.insertionSort (fun a b => a.percentage ≤ b.percentage) files

/-- Lines 163–183 of `executeAnalysisJob`: augment the parsed report with
missing TypeScript files, recompute the aggregate and sort ascending. -/
def buildFinalReport (allTsFiles : List String) (parsed : CoverageReport) : CoverageReport :=
  let files := addMissingFiles allTsFiles parsed.files
  { files := sortByPercentage files,
    totalCoverage := recalcTotalCoverage files }

/-! ## Workspace changes and the containment guard -/

/-- One changed path in the cloned workspace, as reported by
`getChangedFiles` (working-tree diff ∪ staged diff ∪ untracked files).
`canRevert` records whether `git checkout -- <file>` succeeds (a tracked
file with a HEAD version), `canDelete` whether the `rm -f` fallback
succeeds. -/
structure ChangeEntry where
  path : String
  canRevert : Bool
  canDelete : Bool
deriving DecidableEq, Repr

/-- The changed-path list `getChangedFiles` returns for a workspace state. -/
def getChangedPaths (ws : List ChangeEntry) : List String :=
  ws.map (fun e => e.path)

/-- `JobProcessor.resetNonTestFiles`: for every changed non-test file attempt
`git checkout -- <file>`, falling back to `rm -f`; both successful outcomes
remove the path from the changed set, test files are untouched, and a
non-test file survives only if revert and deletion both fail. -/
def resetNonTestFiles (ws : List ChangeEntry) : List ChangeEntry :=
  ws.filter (fun e => isTestFile e.path || (!e.canRevert && !e.canDelete))

/-! ## Matching a coverage report back to a tracked file (lines 331–342) -/

/-- First match step: exact path equality. -/
def findExact (files : List FileCov) (p : String) : Option FileCov :=
  files.find? (fun f => f.path = p)

/-- Second step: `f.path.endsWith('/' + basename(p)) &&
f.path.includes(basename(dirname(p)))`. -/
def findBySuffix (files : List FileCov) (p : String) : Option FileCov :=
  files.find? (fun f =>
    strEndsWith f.path ("/" ++ basename p) && strIncludes f.path (basename (dirname p)))

/-- Third step: equal basenames. -/
def findByBasename (files : List FileCov) (p : String) : Option FileCov :=
  files.find? (fun f => basename f.path = basename p)

/-- Lines 331–342 of `executeImprovementJob`: exact path, then the
suffix-plus-directory heuristic, then the basename heuristic. -/
def findFileCoverage (files : List FileCov) (p : String) : Option FileCov :=
  match findExact files p with
  | some fc => some fc
  | none =>
    match findBySuffix files p with
    | some fc => some fc
    | none => findByBasename files p

/-! ## `isValidTestContent` (lines 531–537) -/

/-- JS `\w`: ASCII letters, digits and underscore. -/
def isWordChar (c : Char) : Bool :=
  ('a' ≤ c && c ≤ 'z') || ('A' ≤ c && c ≤ 'Z') || ('0' ≤ c && c ≤ '9') || c = '_'

/-- JS `\s`, restricted to the common whitespace characters. -/
def isSpaceChar (c : Char) : Bool :=
  c = ' ' || c = '\t' || c = '\n' || c = '\r'

/-- Does `/\b<pat>\s*\(/` match `s` starting exactly at its head, given the
character preceding `s` (`none` at the start of the content)? -/
def callTokenAt (pat : List Char) (prev : Option Char) (s : List Char) : Bool :=
  (match prev with
   | none => true
   | some c => !isWordChar c) &&
  List.isPrefixOf pat s &&
  (match (s.drop pat.length).dropWhile isSpaceChar with
   | '(' :: _ => true
   | _ => false)

/-- Does `/\b<pat>\s*\(/` match anywhere in the remaining content? -/
def hasCallToken (pat : List Char) (prev : Option Char) : List Char → Bool
  | [] => false
  | c :: rest => callTokenAt pat prev (c :: rest) || hasCallToken pat (some c) rest

/-- `JobProcessor.isValidTestContent`: at least one of
`describe(/it(/test(` and at least one `expect(`. -/
def isValidTestContent (content : String) : Bool :=
  let hasDescribe := hasCallToken "describe".data none content.data
  let hasIt := hasCallToken "it".data none content.data
  let hasTest := hasCallToken "test".data none content.data
  let hasExpect := hasCallToken "expect".data none content.data
  (hasDescribe || hasIt || hasTest) && hasExpect

/-! ## The Job entity and its status state machine -/

/-- Job status values used by the `Job` entity. -/
inductive JobStatusV where
  | pending
  | running
  | completed
  | failed
deriving DecidableEq, Repr

/-- Printable status value, as interpolated into error messages. -/
def JobStatusV.value : JobStatusV → String
  | .pending => "pending"
  | .running => "running"
  | .completed => "completed"
  | .failed => "failed"

/-- Modelled from the spec: the `JobStatus` value object is not among the
provided sources, only its call sites are.  The spec's transition graph is
`pending → running` (`start`), `running → completed` (completion),
`running → failed` and `pending → failed` (`fail`, including cancellation);
"any transition not listed above is rejected". -/
def canTransitionTo : JobStatusV → JobStatusV → Bool
  | .pending, .running => true
  | .running, .completed => true
  | .running, .failed => true
  | .pending, .failed => true
  | _, _ => false

/-- `Job.type`. -/
inductive JobType where
  | analysis
  | improvement
deriving DecidableEq, Repr

/-- `Job.aiProvider`. -/
inductive AiProvider where
  | claude
  | openai
deriving DecidableEq, Repr

/-- The unified `Job` entity (analysis and improvement variants share one
record with optional fields, as in the source).  `createdAt` is an abstract
timestamp used only for FIFO ordering. -/
structure Job where
  id : String
  type : JobType
  repositoryId : String
  status : JobStatusV
  progress : ℕ
  error : Option String
  createdAt : ℕ
  repositoryUrl : Option String
  branch : Option String
  filesFound : ℕ
  filesBelowThreshold : ℕ
  fileId : Option String
  filePath : Option String
  aiProvider : Option AiProvider
  prUrl : Option String
deriving DecidableEq, Repr

/-- `Job.transitionTo` (private): validate against the transition graph,
throwing `Invalid status transition from … to …` otherwise. -/
def Job.transitionTo (j : Job) (newStatus : JobStatusV) : Except String Job :=
  if canTransitionTo j.status newStatus then .ok { j with status := newStatus }
  else .error ("Invalid status transition from " ++ j.status.value ++ " to " ++ newStatus.value)

/-- `Job.start`: transition to `running` and reset progress to 0. -/
def Job.start (j : Job) : Except String Job := do
  let j' ← j.transitionTo .running
  return { j' with progress := 0 }

/-- `Job.updateProgress`: only legal on a running job with progress in
`[0, 100]` (the lower bound is vacuous for `ℕ`). -/
def Job.updateProgress (j : Job) (progress : ℕ) : Except String Job :=
  if j.status ≠ .running then .error "Cannot update progress for non-running job"
  else if progress > 100 then
    .error "Progress must be between 0 and 100"
  else .ok { j with progress := progress }

/-- `Job.completeAnalysis`: type-guarded completion of an analysis job. -/
def Job.completeAnalysis (j : Job) (filesFound filesBelowThreshold : ℕ) : Except String Job :=
  if j.type ≠ .analysis then .error "completeAnalysis can only be called on analysis jobs"
  else do
    let j' ← j.transitionTo .completed
    return { j' with progress := 100, filesFound := filesFound,
                     filesBelowThreshold := filesBelowThreshold }

/-- `Job.completeImprovement`: type-guarded completion of an improvement job. -/
def Job.completeImprovement (j : Job) (prUrl : String) : Except String Job :=
  if j.type ≠ .improvement then .error "completeImprovement can only be called on improvement jobs"
  else do
    let j' ← j.transitionTo .completed
    return { j' with prUrl := some prUrl, progress := 100 }

/-- `Job.fail`: transition to `failed` recording the error message. -/
def Job.fail (j : Job) (error : String) : Except String Job := do
  let j' ← j.transitionTo .failed
  return { j' with error := some error }

/-! ## The CoverageFile entity -/

/-- Per-file status: `pending → improving → improved` (or back to `pending`
on failure). -/
inductive CoverageFileStatus where
  | pending
  | improving
  | improved
deriving DecidableEq, Repr

/-- Modelled from the spec: the `CoverageFile` entity is not among the
provided sources, only its call sites are.  Identity, owning repository,
relative path, percentage (centi-percent), ordered uncovered line numbers,
status and optional sub-project directory, per the spec's data model. -/
structure CoverageFile where
  id : String
  repositoryId : String
  path : String
  coveragePercentage : ℤ
  uncoveredLines : List ℕ
  status : CoverageFileStatus
  projectDir : Option String
deriving DecidableEq, Repr

/-- Modelled from the spec: `CoveragePercentage.create` validates the spec's
`0–100` range (here `0–10000` centi-percent), returning the validated value. -/
def CoveragePercentage.create (v : ℤ) : Except String ℤ :=
  if 0 ≤ v ∧ v ≤ 10000 then .ok v
  else .error "Coverage percentage must be between 0 and 100"

/-- Modelled from the spec: an improvement job start marks the file
`improving`. -/
def CoverageFile.markAsImproving (cf : CoverageFile) : CoverageFile :=
  { cf with status := .improving }

/-- Modelled from the spec: completion marks the file `improved` with
updated percentage and uncovered lines. -/
def CoverageFile.markAsImproved (cf : CoverageFile) (pct : ℤ) (lines : List ℕ) : CoverageFile :=
  { cf with status := .improved, coveragePercentage := pct, uncoveredLines := lines }

/-- Modelled from the spec: failure resets the file to `pending`. -/
def CoverageFile.resetToPending (cf : CoverageFile) : CoverageFile :=
  { cf with status := .pending }

/-- Modelled from the spec: a coverage re-run updates the recorded
percentage and uncovered lines. -/
def CoverageFile.updateCoverage (cf : CoverageFile) (pct : ℤ) (lines : List ℕ) : CoverageFile :=
  { cf with coveragePercentage := pct, uncoveredLines := lines }

/-- Modelled from the spec: `CoverageFile.create` as used by the analysis
pipeline; fresh row identity is irrelevant to the claims, so the path is
used as the identity stand-in for the generated UUID. -/
def CoverageFile.create (repositoryId path : String) (pct : ℤ) (lines : List ℕ)
    (projectDir : Option String) : CoverageFile :=
  { id := path, repositoryId := repositoryId, path := path, coveragePercentage := pct,
    uncoveredLines := lines, status := .pending, projectDir := projectDir }

/-- The keyed coverage-file store (the persistence collaborator), as a map
from identity to record. -/
def CovStore : Type := String → Option CoverageFile

/-- Save (insert or replace) a coverage file under its identity. -/
def CovStore.save (s : CovStore) (cf : CoverageFile) : CovStore :=
  fun i => if i = cf.id then some cf else s i

/-- A repository record, reduced to the fields the pipelines read. -/
structure RepoRec where
  id : String
  url : String
  owner : String
  name : String
  branch : String
  defaultBranch : String
  analyzed : Bool
deriving DecidableEq, Repr

/-! ## The pipeline monad: sequencing with JS `try`-style exceptions -/

/-- State plus string-message exceptions; an `Except.error` is a thrown JS
exception that unwinds to the enclosing `catch` while keeping all object
mutations performed so far. -/
def PipeM (σ α : Type) : Type := σ → Except String α × σ

instance : Monad (PipeM σ) where
  pure a := fun s => (.ok a, s)
  bind m f := fun s =>
    match m s with
    | (.ok a, s') => f a s'
    | (.error e, s') => (.error e, s')

/-- Throw a JS exception. -/
def pThrow (e : String) : PipeM σ α := fun s => (.error e, s)

/-- Read the current state. -/
def pGet : PipeM σ σ := fun s => (.ok s, s)

/-- Update the state. -/
def pModify (f : σ → σ) : PipeM σ Unit := fun s => (.ok (), f s)

/-- Run a fallible collaborator call. -/
def pLift (r : Except String α) : PipeM σ α := fun s => (r, s)

/-! ## Configuration -/

/-- Environment-style configuration consumed by the processor
(`AI_MAX_RETRIES`, `COVERAGE_THRESHOLD` in centi-percent). -/
structure ProcessorConfig where
  maxRetries : ℕ
  coverageThreshold : ℤ
deriving DecidableEq, Repr

/-- The defaults: 3 retries, 80% threshold. -/
def defaultConfig : ProcessorConfig :=
  { maxRetries := 3, coverageThreshold := 8000 }

/-- `GitHubService.getTempDir`: a job-scoped workspace directory. -/
def getTempDir (jobId : String) : String := "tmp/" ++ jobId

/-- `JobProcessor.findTestFile` (lines 539–553), over an
existence oracle for the cloned checkout. -/
def findTestFile (existsAt : String → Bool) (clonePath sourcePath : String) : Option String :=
  let baseName := replaceFirst sourcePath ".ts" ""
  let patterns := [baseName ++ ".spec.ts", baseName ++ ".test.ts",
    replaceFirst (replaceFirst sourcePath "/src/" "/test/") ".ts" ".spec.ts"]
  patterns.find? (fun pattern => existsAt (joinPath clonePath pattern))

/-! ## Improvement pipeline (`JobProcessor.executeImprovementJob`) -/

/-- Oracle outcomes of the external collaborators consulted during one
iteration of the generation loop. -/
structure AttemptEnv where
  generateResult : Except String Unit
  changedFiles : List String
  expectedTestExists : Bool
  testContent : String
  runTestsResult : Except String Unit
  parsedReport : CoverageReport

/-- Oracle outcomes of the external collaborators of one improvement-job
execution. -/
structure ImproveEnv where
  cloneResult : Except String Unit
  installResult : Except String Unit
  branchResult : Except String Unit
  sourceExists : Bool
  existsAt : String → Bool
  attempts : ℕ → AttemptEnv
  finalChanges : List ChangeEntry
  commitResult : Except String Unit
  prResult : Except String String

/-- Mutable state of one improvement-job execution: the job entity, the
coverage-file store, and instrumentation recording the number of AI agent
invocations, workspace lifecycle, the files passed to `commitAndPush`, and
the last successfully parsed coverage report. -/
structure ISt where
  job : Job
  covStore : CovStore
  aiCalls : ℕ
  workspaceCreated : Bool
  cleaned : Bool
  committedFiles : Option (List String)
  lastReport : Option CoverageReport

/-- Apply a `Job` method to the in-state job entity; a validation throw
leaves the entity unchanged, as in JS. -/
def jobDo (f : Job → Except String Job) : PipeM ISt Unit := fun s =>
  match f s.job with
  | .ok j => (.ok (), { s with job := j })
  | .error e => (.error e, s)

/-- `coverageFileRepo.save` (keyed-record store, out of scope per the spec,
hence infallible). -/
def saveCoverageFile (cf : CoverageFile) : PipeM ISt Unit :=
  pModify fun s => { s with covStore := s.covStore.save cf }

/-- Lines 236–279: start the job, resolve repository and coverage file,
clone, install, create the branch, check the source file exists and look
for an existing test file. -/
def improveSetup (env : ImproveEnv) (repos : String → Option RepoRec) :
    PipeM ISt (RepoRec × CoverageFile × Option String) := do
  jobDo Job.start
  let s ← pGet
  let job := s.job
  let repository ← match repos job.repositoryId with
    | some r => pure r
    | none => pThrow ("Repository not found: " ++ job.repositoryId)
  let coverageFile ← match job.fileId.bind s.covStore with
    | some cf => pure cf
    | none => pThrow ("Coverage file not found: " ++ job.fileId.getD "null")
  jobDo (Job.updateProgress · 10)
  pModify fun st => { st with workspaceCreated := true }
  pLift env.cloneResult
  jobDo (Job.updateProgress · 15)
  pLift env.installResult
  jobDo (Job.updateProgress · 20)
  pLift env.branchResult
  if env.sourceExists then pure ()
  else pThrow ("Source file not found: " ++ coverageFile.path)
  let testFilePath := findTestFile env.existsAt (getTempDir job.id) coverageFile.path
  pure (repository, coverageFile, testFilePath)

/-- The loop-carried values of the iterative generation loop. -/
structure LoopRes where
  cf : CoverageFile
  currentCoverage : ℤ
  currentUncoveredLines : List ℕ
  generatedTestPath : Option String

/-- Lines 281–361, the iterative test-generation loop
`while (attempt < maxRetries && currentCoverage < coverageThreshold)`.
`fuel` is the number of attempts still allowed (`maxRetries - attemptIdx`),
so the guard `attempt < maxRetries` is `fuel ≠ 0` at entry and the inner
`if (attempt < this.maxRetries) continue` is `fuel ≠ 0` after decrementing. -/
def runAttempts (cfg : ProcessorConfig) (env : ImproveEnv) (testFilePath : Option String) :
    (fuel attemptIdx : ℕ) → LoopRes → PipeM ISt LoopRes
  | 0, _, acc => pure acc
  | fuel + 1, attemptIdx, acc => do
    if acc.currentCoverage < cfg.coverageThreshold then do
      let a := env.attempts attemptIdx
      let progressBase := 25 + attemptIdx * 20
      jobDo (Job.updateProgress · progressBase)
      pModify fun s => { s with aiCalls := s.aiCalls + 1 }
      pLift a.generateResult
      let newTestFiles := a.changedFiles.filter isTestFile
      let expectedTestPath := testFilePath.getD (replaceFirst acc.cf.path ".ts" ".test.ts")
      if !a.expectedTestExists && newTestFiles.isEmpty then
        if fuel ≠ 0 then
          runAttempts cfg env testFilePath fuel (attemptIdx + 1) acc
        else pThrow "AI failed to create test file after all attempts"
      else
        let generatedTestPath := newTestFiles.headD expectedTestPath
        if !isValidTestContent a.testContent then
          if fuel ≠ 0 then
            runAttempts cfg env testFilePath fuel (attemptIdx + 1)
              { acc with generatedTestPath := some generatedTestPath }
          else pThrow "AI failed to generate valid test content after all attempts"
        else do
          jobDo (Job.updateProgress · (progressBase + 10))
          pLift a.runTestsResult
          let report := a.parsedReport
          pModify fun s => { s with lastReport := some report }
          let acc' ← match findFileCoverage report.files acc.cf.path with
            | some fileCoverage => do
              let pct ← pLift (CoveragePercentage.create fileCoverage.percentage)
              let cf' := acc.cf.updateCoverage pct fileCoverage.uncoveredLines
              saveCoverageFile cf'
              pure ({ cf := cf', currentCoverage := fileCoverage.percentage,
                      currentUncoveredLines := fileCoverage.uncoveredLines,
                      generatedTestPath := some generatedTestPath } : LoopRes)
            | none =>
              pure { acc with currentCoverage := report.totalCoverage,
                              generatedTestPath := some generatedTestPath }
          if acc'.currentCoverage ≥ cfg.coverageThreshold then pure acc'
          else runAttempts cfg env testFilePath fuel (attemptIdx + 1) acc'
    else pure acc

/-- Lines 363–405: require a generated test path, contain non-test changes
and hard-fail if any survive, commit and push the surviving files, open the
pull request, complete the job and mark the file improved. -/
def improveFinish (env : ImproveEnv) (lr : LoopRes) : PipeM ISt Job := do
  if lr.generatedTestPath.isNone then pThrow "No test file was generated" else pure ()
  jobDo (Job.updateProgress · 70)
  let wsAfter := resetNonTestFiles env.finalChanges
  let changedFiles := getChangedPaths wsAfter
  let invalidFiles := changedFiles.filter (fun f => !isTestFile f)
  if !invalidFiles.isEmpty then
    pThrow ("Invalid files modified: " ++ String.intercalate ", " invalidFiles)
  else pure ()
  jobDo (Job.updateProgress · 80)
  pModify fun s => { s with committedFiles := some changedFiles }
  pLift env.commitResult
  jobDo (Job.updateProgress · 90)
  let prUrl ← pLift env.prResult
  jobDo (Job.completeImprovement · prUrl)
  let pct ← pLift (CoveragePercentage.create lr.currentCoverage)
  saveCoverageFile (lr.cf.markAsImproved pct [])
  let s ← pGet
  pure s.job

/-- The `try` block of `executeImprovementJob`. -/
def tryImprove (cfg : ProcessorConfig) (env : ImproveEnv)
    (repos : String → Option RepoRec) : PipeM ISt Job := do
  let r ← improveSetup env repos
  let lr ← runAttempts cfg env r.2.2 cfg.maxRetries 0
    { cf := r.2.1, currentCoverage := r.2.1.coveragePercentage,
      currentUncoveredLines := r.2.1.uncoveredLines, generatedTestPath := none }
  improveFinish env lr

/-- The `catch` block (lines 406–420): fail the job, then reset the targeted
coverage file (re-fetched from the store) back to pending.  A throw from
`job.fail` itself (terminal job) propagates out of the handler. -/
def catchImprove (msg : String) : PipeM ISt Job := do
  jobDo (Job.fail · msg)
  let s ← pGet
  match s.job.fileId with
  | some fid =>
    match s.covStore fid with
    | some coverageFile => do
      saveCoverageFile coverageFile.resetToPending
      let s' ← pGet
      pure s'.job
    | none => pure s.job
  | none => pure s.job

/-- `executeImprovementJob`: `try`/`catch`/`finally` around the pipeline;
the `finally` cleans up the workspace whenever one was created. -/
def executeImprovementJob (cfg : ProcessorConfig) (env : ImproveEnv)
    (repos : String → Option RepoRec) (job : Job) (store : CovStore) :
    Except String Job × ISt :=
  let s0 : ISt := { job := job, covStore := store, aiCalls := 0,
                    workspaceCreated := false, cleaned := false,
                    committedFiles := none, lastReport := none }
  let r1 := tryImprove cfg env repos s0
  let r2 := match r1.1 with
    | .ok j => (Except.ok j, r1.2)
    | .error msg => catchImprove msg r1.2
  (r2.1, { r2.2 with cleaned := r2.2.workspaceCreated })

/-! ## Analysis pipeline (`JobProcessor.executeAnalysisJob`) -/

/-- Oracle outcomes of the external collaborators of one analysis-job
execution.  `projectInfo` is the result of `findProjectDirectory` (a
filesystem/JSON-manifest search, treated as an oracle): the relative
project directory (`none` at the checkout root) and whether a test script
was declared. -/
structure AnalysisEnv where
  cloneResult : Except String Unit
  projectInfo : Option (Option String × Bool)
  installResult : Except String Unit
  runTestsResult : Except String Unit
  parsedReport : CoverageReport
  checkout : FsForest

/-- Mutable state of one analysis-job execution.  `savedFiles` logs the
coverage rows inserted after `deleteByRepositoryId` (recorded in
`covDeleted`). -/
structure ASt where
  job : Job
  repoStore : String → Option RepoRec
  covDeleted : Option String
  savedFiles : List CoverageFile
  workspaceCreated : Bool
  cleaned : Bool

/-- Apply a `Job` method to the in-state job entity (analysis variant). -/
def jobDoA (f : Job → Except String Job) : PipeM ASt Unit := fun s =>
  match f s.job with
  | .ok j => (.ok (), { s with job := j })
  | .error e => (.error e, s)

/-- `repoRepository.save`. -/
def saveRepo (r : RepoRec) : PipeM ASt Unit :=
  pModify fun s => { s with repoStore := fun i => if i = r.id then some r else s.repoStore i }

/-- Modelled from the spec: `GitHubRepo.fromGitHubUrl` extracts owner and
name (the implementation is not among the provided sources); the last two
`/`-separated segments stand in for them. -/
def parseGitHubUrl (url : String) : String × String :=
  match (splitOnChar '/' url.data).reverse with
  | name :: owner :: _ => (⟨owner⟩, ⟨name⟩)
  | _ => ("", "")

/-- Lines 193–206: store one coverage row per report entry and count the
files below the configured threshold. -/
def saveReportFiles (cfg : ProcessorConfig) (repoId : String) (projectDir : Option String) :
    List FileCov → PipeM ASt ℕ
  | [] => pure 0
  | f :: rest => do
    let pct ← pLift (CoveragePercentage.create f.percentage)
    pModify fun st =>
      { st with savedFiles :=
          st.savedFiles ++ [CoverageFile.create repoId f.path pct f.uncoveredLines projectDir] }
    let n ← saveReportFiles cfg repoId projectDir rest
    pure (if f.percentage < cfg.coverageThreshold then n + 1 else n)

/-- The `try` block of `executeAnalysisJob` (lines 100–217). -/
def tryAnalysis (cfg : ProcessorConfig) (env : AnalysisEnv) : PipeM ASt Job := do
  jobDoA Job.start
  let s ← pGet
  let job := s.job
  let repository ← match s.repoStore job.repositoryId with
    | some r => pure r
    | none =>
      match job.repositoryUrl with
      | some url => do
        let ow := parseGitHubUrl url
        let r : RepoRec := { id := url, url := url, owner := ow.1, name := ow.2,
                             branch := job.branch.getD "main",
                             defaultBranch := job.branch.getD "main", analyzed := false }
        saveRepo r
        pure r
      | none => pThrow "Repository not found"
  pModify fun st => { st with workspaceCreated := true }
  pLift env.cloneResult
  jobDoA (Job.updateProgress · 20)
  let relativeProjectDir : Option String :=
    match env.projectInfo with
    | some pi => pi.1
    | none => none
  let coverageReport ← match env.projectInfo with
    | some _ => do
      pLift env.installResult
      jobDoA (Job.updateProgress · 40)
      pLift env.runTestsResult
      jobDoA (Job.updateProgress · 60)
      pure env.parsedReport
    | none => pure ({ files := [], totalCoverage := 0 } : CoverageReport)
  let allTsFiles := findAllTypeScriptFiles env.checkout
  let report := buildFinalReport allTsFiles coverageReport
  jobDoA (Job.updateProgress · 80)
  pModify fun st => { st with covDeleted := some repository.id, savedFiles := [] }
  let filesBelowThreshold ← saveReportFiles cfg repository.id relativeProjectDir report.files
  saveRepo { repository with analyzed := true }
  jobDoA (fun j => j.completeAnalysis report.files.length filesBelowThreshold)
  let s' ← pGet
  pure s'.job

/-- The `catch` block of `executeAnalysisJob` (lines 218–223). -/
def catchAnalysis (msg : String) : PipeM ASt Job := do
  jobDoA (Job.fail · msg)
  let s ← pGet
  pure s.job

/-- `executeAnalysisJob`: `try`/`catch`/`finally`. -/
def executeAnalysisJob (cfg : ProcessorConfig) (env : AnalysisEnv) (job : Job)
    (repos : String → Option RepoRec) : Except String Job × ASt :=
  let s0 : ASt := { job := job, repoStore := repos, covDeleted := none,
                    savedFiles := [], workspaceCreated := false, cleaned := false }
  let r1 := tryAnalysis cfg env s0
  let r2 := match r1.1 with
    | .ok j => (Except.ok j, r1.2)
    | .error msg => catchAnalysis msg r1.2
  (r2.1, { r2.2 with cleaned := r2.2.workspaceCreated })

/-! ## The scheduler (`JobProcessor.processNextJob`) -/

/-- Modelled from the spec: the `JobRepository.findPending` implementation
is not among the provided sources; per the spec's persistence interface it
returns the oldest pending jobs, FIFO by creation time, up to `limit`. -/
def findPending (jobs : List Job) (limit : ℕ) : List Job :=
  (List.insertionSort (fun a b => a.createdAt ≤ b.createdAt)
    (jobs.filter (fun j => j.status = JobStatusV.pending))).take limit

/-- `JobRepository.findRunning` filtered by job type. -/
def findRunning (jobs : List Job) (t : JobType) : List Job :=
  jobs.filter (fun j => j.status = JobStatusV.running && j.type = t)

/-- Lines 61–81 of `processNextJob`, up to the decision which job (if any)
to execute this tick. -/
def selectNextJob (jobs : List Job) : Option Job :=
  match findPending jobs 1 with
  | [] => none
  | job :: _ =>
    let runningJobs := findRunning jobs job.type
    if job.type = JobType.analysis ∧ runningJobs.length > 0 then none
    else if job.type = JobType.improvement ∧
        (runningJobs.filter (fun j => j.repositoryId = job.repositoryId)).length > 0 then none
    else some job

/-- The observable outcome of one `processNextJob` tick. -/
inductive ProcOutcome where
  | idle
  | ranAnalysis (result : Except String Job) (st : ASt)
  | ranImprovement (result : Except String Job) (st : ISt)

/-- `processNextJob`: select the eligible job and execute it by type
(`executeJob` dispatch, lines 87–93). -/
def processNextJob (cfg : ProcessorConfig) (jobs : List Job) (aenv : AnalysisEnv)
    (ienv : ImproveEnv) (repos : String → Option RepoRec) (covStore : CovStore) :
    ProcOutcome :=
  match selectNextJob jobs with
  | none => .idle
  | some job =>
    match job.type with
    | .analysis =>
      let r := executeAnalysisJob cfg aenv job repos
      .ranAnalysis r.1 r.2
    | .improvement =>
      let r := executeImprovementJob cfg ienv repos job covStore
      .ranImprovement r.1 r.2

/-- The visible effect of one scheduling tick on the job table: the selected
pending job transitions to `running` (its `start()` is the first statement
of either pipeline). -/
def markStarted (jobs : List Job) (id : String) : List Job :=
  jobs.map fun j =>
    if j.id = id then { j with status := JobStatusV.running, progress := 0 } else j

/-- One scheduling tick's effect on the job table. -/
def schedulerStep (jobs : List Job) : List Job :=
  match selectNextJob jobs with
  | some j => markStarted jobs j.id
  | none => jobs

/-- Number of running analysis jobs, system-wide. -/
def runningAnalysisCount (jobs : List Job) : ℕ :=
  (findRunning jobs JobType.analysis).length

/-- Number of running improvement jobs for one repository. -/
def runningImprovementCount (jobs : List Job) (repoId : String) : ℕ :=
  ((findRunning jobs JobType.improvement).filter (fun j => j.repositoryId = repoId)).length

/-! ## `ImprovementService.cancel` -/

/-- `ImprovementService.cancel`: reject unless the job is pending or
running, fail it with `Cancelled by user`, and reset the targeted coverage
file to pending. -/
def cancelJob (jobStore : String → Option Job) (covStore : CovStore) (jobId : String) :
    Except String (Job × CovStore) :=
  match jobStore jobId with
  | none => .error ("Job not found: " ++ jobId)
  | some job =>
    if job.status ≠ JobStatusV.pending ∧ job.status ≠ JobStatusV.running then
      .error ("Cannot cancel job in " ++ job.status.value ++ " status")
    else
      match job.fail "Cancelled by user" with
      | .error e => .error e
      | .ok job' =>
        match job'.fileId with
        | some fid =>
          match covStore fid with
          | some cf => .ok (job', covStore.save cf.resetToPending)
          | none => .ok (job', covStore)
        | none => .ok (job', covStore)


/-! ## Run lemmas for the pipeline monad -/

theorem run_bind (m : PipeM σ α) (f : α → PipeM σ β) (s : σ) :
    (m >>= f) s = match m s with
      | (.ok a, s') => f a s'
      | (.error e, s') => (.error e, s') := rfl

theorem run_pure (a : α) (s : σ) : (pure a : PipeM σ α) s = (.ok a, s) := rfl

theorem run_pThrow (e : String) (s : σ) : (pThrow e : PipeM σ α) s = (.error e, s) := rfl

theorem run_pGet (s : σ) : (pGet : PipeM σ σ) s = (.ok s, s) := rfl

theorem run_pModify (f : σ → σ) (s : σ) : (pModify f) s = (.ok (), f s) := rfl

theorem run_pLift (r : Except String α) (s : σ) : (pLift r : PipeM σ α) s = (r, s) := rfl

theorem run_jobDo (f : Job → Except String Job) (s : ISt) :
    jobDo f s = match f s.job with
      | .ok j => (.ok (), { s with job := j })
      | .error e => (.error e, s) := rfl

theorem run_jobDoA (f : Job → Except String Job) (s : ASt) :
    jobDoA f s = match f s.job with
      | .ok j => (.ok (), { s with job := j })
      | .error e => (.error e, s) := rfl

theorem run_saveCoverageFile (cf : CoverageFile) (s : ISt) :
    saveCoverageFile cf s = (.ok (), { s with covStore := s.covStore.save cf }) := rfl

theorem run_saveRepo (r : RepoRec) (s : ASt) :
    saveRepo r s = (.ok (), { s with repoStore := fun i => if i = r.id then some r else s.repoStore i }) := rfl

/-! ## Small facts about the Job state machine methods -/

theorem Job.start_of_pending (j : Job) (h : j.status = .pending) :
    j.start = .ok { j with status := .running, progress := 0 } := by
  simp [Job.start, Job.transitionTo, h, canTransitionTo, bind, Except.bind, pure, Except.pure]

theorem Job.start_pending_or_error (j : Job) :
    (j.status = .pending ∧ j.start = .ok { j with status := .running, progress := 0 }) ∨
    (j.status ≠ .pending ∧ ∃ e, j.start = .error e) := by
  cases h : j.status <;>
    simp [Job.start, Job.transitionTo, h, canTransitionTo, bind, Except.bind, pure, Except.pure]

theorem Job.updateProgress_of_running (j : Job) (p : ℕ) (h : j.status = .running)
    (hp : p ≤ 100) : j.updateProgress p = .ok { j with progress := p } := by
  unfold Job.updateProgress
  rw [if_neg (by simp [h]), if_neg (by omega)]

theorem Job.updateProgress_cases (j : Job) (p : ℕ) :
    j.updateProgress p = .ok { j with progress := p } ∨ ∃ e, j.updateProgress p = .error e := by
  unfold Job.updateProgress
  split
  · right; exact ⟨_, rfl⟩
  · split
    · right; exact ⟨_, rfl⟩
    · left; rfl

theorem Job.updateProgress_status (j j' : Job) (p : ℕ)
    (h : j.updateProgress p = .ok j') : j' = { j with progress := p } ∧ j.status = .running := by
  unfold Job.updateProgress at h
  split at h
  · exact absurd h (by simp)
  · split at h
    · exact absurd h (by simp)
    · refine ⟨by injection h with h; exact h.symm, by simp_all⟩

theorem Job.fail_of_running (j : Job) (msg : String) (h : j.status = .running) :
    j.fail msg = .ok { j with status := .failed, error := some msg } := by
  simp [Job.fail, Job.transitionTo, h, canTransitionTo, bind, Except.bind, pure, Except.pure]

theorem Job.fail_of_pending (j : Job) (msg : String) (h : j.status = .pending) :
    j.fail msg = .ok { j with status := .failed, error := some msg } := by
  simp [Job.fail, Job.transitionTo, h, canTransitionTo, bind, Except.bind, pure, Except.pure]

theorem Job.completeImprovement_ok (j j' : Job) (u : String)
    (h : j.completeImprovement u = .ok j') :
    j'.status = .completed ∧ j.status = .running := by
  unfold Job.completeImprovement at h
  split at h
  · exact absurd h (by simp)
  · unfold Job.transitionTo at h
    cases hc : canTransitionTo j.status .completed with
    | false => rw [hc] at h; simp [bind, Except.bind] at h
    | true =>
      rw [hc] at h
      simp only [if_true, bind, Except.bind] at h
      refine ⟨by injection h with h; rw [← h], ?_⟩
      cases hs : j.status <;> rw [hs] at hc <;> simp [canTransitionTo] at hc

theorem Job.completeAnalysis_ok (j j' : Job) (a b : ℕ)
    (h : j.completeAnalysis a b = .ok j') :
    j'.status = .completed ∧ j.status = .running := by
  unfold Job.completeAnalysis at h
  split at h
  · exact absurd h (by simp)
  · unfold Job.transitionTo at h
    cases hc : canTransitionTo j.status .completed with
    | false => rw [hc] at h; simp [bind, Except.bind] at h
    | true =>
      rw [hc] at h
      simp only [if_true, bind, Except.bind] at h
      refine ⟨by injection h with h; rw [← h], ?_⟩
      cases hs : j.status <;> rw [hs] at hc <;> simp [canTransitionTo] at hc

/-! ## Walk lemmas for the improvement pipeline -/

/-- A keyed store maps each identity to a record carrying that identity. -/
def wellKeyed (s : CovStore) : Prop :=
  ∀ i cf, s i = some cf → cf.id = i

theorem wellKeyed_save {s : CovStore} (h : wellKeyed s) (cf : CoverageFile) :
    wellKeyed (s.save cf) := by
  intro i cf' h'
  unfold CovStore.save at h'
  split at h'
  next heq => injection h' with h2; rw [← h2]; exact heq.symm
  next => exact h i cf' h'

/-- Characterization of `improveSetup` from a pending job: it leaves the
store and instrumentation untouched, leaves the job running (whether it
returns or throws), and on success returns the coverage file looked up under
the job's `fileId`. -/
theorem improveSetup_spec (env : ImproveEnv) (repos : String → Option RepoRec) (s0 : ISt)
    (hp : s0.job.status = .pending) :
    (improveSetup env repos s0).2.covStore = s0.covStore ∧
    (improveSetup env repos s0).2.aiCalls = s0.aiCalls ∧
    (improveSetup env repos s0).2.committedFiles = s0.committedFiles ∧
    (improveSetup env repos s0).2.lastReport = s0.lastReport ∧
    (improveSetup env repos s0).2.job.status = .running ∧
    (∀ v, (improveSetup env repos s0).1 = .ok v →
       s0.job.fileId.bind s0.covStore = some v.2.1 ∧
       (improveSetup env repos s0).2.job = { s0.job with status := .running, progress := 20 }) := by
  cases hrepo : repos s0.job.repositoryId with
  | none =>
    simp [improveSetup, run_bind, run_jobDo, run_pGet, run_pModify, run_pLift, run_pThrow,
      run_pure, Job.start_of_pending s0.job hp, hrepo]
  | some repo =>
  cases hfile : s0.job.fileId.bind s0.covStore with
  | none =>
    simp [improveSetup, run_bind, run_jobDo, run_pGet, run_pModify, run_pLift, run_pThrow,
      run_pure, Job.start_of_pending s0.job hp, hrepo, hfile]
  | some cf =>
  cases henvc : env.cloneResult with
  | error e =>
    simp [improveSetup, run_bind, run_jobDo, run_pGet, run_pModify, run_pLift, run_pThrow,
      run_pure, Job.start_of_pending s0.job hp, hrepo, hfile, henvc,
      Job.updateProgress_of_running]
  | ok u1 =>
  cases henvi : env.installResult with
  | error e =>
    simp [improveSetup, run_bind, run_jobDo, run_pGet, run_pModify, run_pLift, run_pThrow,
      run_pure, Job.start_of_pending s0.job hp, hrepo, hfile, henvc, henvi,
      Job.updateProgress_of_running]
  | ok u2 =>
  cases henvb : env.branchResult with
  | error e =>
    simp [improveSetup, run_bind, run_jobDo, run_pGet, run_pModify, run_pLift, run_pThrow,
      run_pure, Job.start_of_pending s0.job hp, hrepo, hfile, henvc, henvi, henvb,
      Job.updateProgress_of_running]
  | ok u3 =>
  cases hsrc : env.sourceExists with
  | false =>
    simp [improveSetup, run_bind, run_jobDo, run_pGet, run_pModify, run_pLift, run_pThrow,
      run_pure, Job.start_of_pending s0.job hp, hrepo, hfile, henvc, henvi, henvb, hsrc,
      Job.updateProgress_of_running]
  | true =>
    simp [improveSetup, run_bind, run_jobDo, run_pGet, run_pModify, run_pLift, run_pThrow,
      run_pure, Job.start_of_pending s0.job hp, hrepo, hfile, henvc, henvi, henvb, hsrc,
      Job.updateProgress_of_running, hfile]

theorem CoveragePercentage.create_of_range (v : ℤ) (h : 0 ≤ v ∧ v ≤ 10000) :
    CoveragePercentage.create v = .ok v := by
  simp [CoveragePercentage.create, h]

/-- The generated-test-path value assigned at line 315 of the source:
the first changed test file, else the expected test path. -/
def genPathOf (env : ImproveEnv) (idx : ℕ) (tfp : Option String) (p : String) : String :=
  ((env.attempts idx).changedFiles.filter isTestFile).headD
    (tfp.getD (replaceFirst p ".ts" ".test.ts"))

/-- The per-iteration facts of the generation loop, proved by induction on
the remaining fuel: the job entity stays `running`, the committed-files
instrumentation is untouched, store well-keyedness is preserved, and a
normal exit preserves the target file's identity and path and leaves
`currentCoverage` either untouched (with no new parsed report) or equal to
the matched percentage — or the aggregate — of the attempt whose parsed
report was recorded last. -/
theorem runAttempts_spec (cfg : ProcessorConfig) (env : ImproveEnv) (tfp : Option String) :
    ∀ (fuel idx : ℕ) (acc : LoopRes) (s0 : ISt), s0.job.status = .running →
    (runAttempts cfg env tfp fuel idx acc s0).2.job.status = .running ∧
    (runAttempts cfg env tfp fuel idx acc s0).2.committedFiles = s0.committedFiles ∧
    (wellKeyed s0.covStore → wellKeyed (runAttempts cfg env tfp fuel idx acc s0).2.covStore) ∧
    (∀ lr, (runAttempts cfg env tfp fuel idx acc s0).1 = .ok lr →
      lr.cf.id = acc.cf.id ∧ lr.cf.path = acc.cf.path ∧
      (((runAttempts cfg env tfp fuel idx acc s0).2.lastReport = s0.lastReport ∧
          lr.currentCoverage = acc.currentCoverage) ∨
       (∃ i, (runAttempts cfg env tfp fuel idx acc s0).2.lastReport =
            some (env.attempts i).parsedReport ∧
          ((∃ fc, findFileCoverage (env.attempts i).parsedReport.files acc.cf.path = some fc ∧
              lr.currentCoverage = fc.percentage) ∨
           (findFileCoverage (env.attempts i).parsedReport.files acc.cf.path = none ∧
              lr.currentCoverage = (env.attempts i).parsedReport.totalCoverage))))) := by
  intro fuel
  induction fuel with
  | zero =>
    intro idx acc s0 hr
    have hbody : runAttempts cfg env tfp 0 idx acc s0 = (.ok acc, s0) := rfl
    rw [hbody]
    refine ⟨hr, rfl, fun w => w, ?_⟩
    intro lr hlr
    injection hlr with h
    subst h
    exact ⟨rfl, rfl, Or.inl ⟨rfl, rfl⟩⟩
  | succ fuel ih =>
    intro idx acc s0 hr
    by_cases hcov : acc.currentCoverage < cfg.coverageThreshold
    case neg =>
      have hbody : runAttempts cfg env tfp (fuel + 1) idx acc s0 = (.ok acc, s0) := by
        simp [runAttempts, genPathOf, hcov, run_pure]
      rw [hbody]
      refine ⟨hr, rfl, fun w => w, ?_⟩
      intro lr hlr
      injection hlr with h
      subst h
      exact ⟨rfl, rfl, Or.inl ⟨rfl, rfl⟩⟩
    case pos =>
      rcases Job.updateProgress_cases s0.job (25 + idx * 20) with hu | ⟨e, hu⟩
      case inr =>
        have hbody : runAttempts cfg env tfp (fuel + 1) idx acc s0 = (.error e, s0) := by
          simp [runAttempts, genPathOf, hcov, run_bind, run_jobDo, hu]
        rw [hbody]
        exact ⟨hr, rfl, fun w => w, by intro lr h; exact absurd h (by simp)⟩
      case inl =>
      rcases henvg : (env.attempts idx).generateResult with e | u
      case error =>
        have hbody : runAttempts cfg env tfp (fuel + 1) idx acc s0 = (.error e,
            { s0 with job := { s0.job with progress := 25 + idx * 20 },
                      aiCalls := s0.aiCalls + 1 }) := by
          simp [runAttempts, genPathOf, hcov, run_bind, run_jobDo, hu, run_pModify, run_pLift, henvg]
        rw [hbody]
        exact ⟨hr, rfl, fun w => w, by intro lr h; exact absurd h (by simp)⟩
      case ok =>
      cases hnf : (!(env.attempts idx).expectedTestExists &&
          ((env.attempts idx).changedFiles.filter isTestFile).isEmpty) with
      | true =>
        by_cases hf : fuel = 0
        case pos =>
          subst hf
          have hbody : runAttempts cfg env tfp (0 + 1) idx acc s0 =
              (.error "AI failed to create test file after all attempts",
              { s0 with job := { s0.job with progress := 25 + idx * 20 },
                        aiCalls := s0.aiCalls + 1 }) := by
            simp [runAttempts, genPathOf, hcov, run_bind, run_jobDo, hu, run_pModify, run_pLift, henvg,
              hnf, run_pThrow]
          rw [hbody]
          exact ⟨hr, rfl, fun w => w, by intro lr h; exact absurd h (by simp)⟩
        case neg =>
          have hbody : runAttempts cfg env tfp (fuel + 1) idx acc s0 =
              runAttempts cfg env tfp fuel (idx + 1) acc
                { s0 with job := { s0.job with progress := 25 + idx * 20 },
                          aiCalls := s0.aiCalls + 1 } := by
            simp [runAttempts, genPathOf, hcov, run_bind, run_jobDo, hu, run_pModify, run_pLift, henvg,
              hnf, hf]
          rw [hbody]
          exact ih (idx + 1) acc _ hr
      | false =>
      cases hval : isValidTestContent (env.attempts idx).testContent with
      | false =>
        by_cases hf : fuel = 0
        case pos =>
          subst hf
          have hbody : runAttempts cfg env tfp (0 + 1) idx acc s0 =
              (.error "AI failed to generate valid test content after all attempts",
              { s0 with job := { s0.job with progress := 25 + idx * 20 },
                        aiCalls := s0.aiCalls + 1 }) := by
            simp [runAttempts, genPathOf, hcov, run_bind, run_jobDo, hu, run_pModify, run_pLift, henvg,
              hnf, hval, run_pThrow]
          rw [hbody]
          exact ⟨hr, rfl, fun w => w, by intro lr h; exact absurd h (by simp)⟩
        case neg =>
          have hbody : runAttempts cfg env tfp (fuel + 1) idx acc s0 =
              runAttempts cfg env tfp fuel (idx + 1)
                { acc with generatedTestPath := some (genPathOf env idx tfp acc.cf.path) }
                { s0 with job := { s0.job with progress := 25 + idx * 20 },
                          aiCalls := s0.aiCalls + 1 } := by
            simp [runAttempts, genPathOf, hcov, run_bind, run_jobDo, hu, run_pModify, run_pLift, henvg,
              hnf, hval, hf]
          rw [hbody]
          obtain ⟨ih1, ih2, ih3, ih4⟩ := ih (idx + 1)
            { acc with generatedTestPath := some (genPathOf env idx tfp acc.cf.path) }
            { s0 with job := { s0.job with progress := 25 + idx * 20 },
                      aiCalls := s0.aiCalls + 1 } hr
          refine ⟨ih1, ih2, ih3, ?_⟩
          intro lr hlr
          obtain ⟨hid, hpath, hdisj⟩ := ih4 lr hlr
          exact ⟨hid, hpath, hdisj⟩
      | true =>
        rcases Job.updateProgress_cases ({ s0.job with progress := 25 + idx * 20 } : Job)
          (25 + idx * 20 + 10) with hu2 | ⟨e2, hu2⟩
        on_goal 2 =>
          have hbody : runAttempts cfg env tfp (fuel + 1) idx acc s0 = (.error e2,
              { s0 with job := { s0.job with progress := 25 + idx * 20 },
                        aiCalls := s0.aiCalls + 1 }) := by
            simp [runAttempts, genPathOf, hcov, run_bind, run_jobDo, hu, run_pModify, run_pLift, henvg,
              hnf, hval, hu2]
          rw [hbody]
          exact ⟨hr, rfl, fun w => w, by intro lr h; exact absurd h (by simp)⟩
        rcases hrt : (env.attempts idx).runTestsResult with e3 | u3
        case error =>
          have hbody : runAttempts cfg env tfp (fuel + 1) idx acc s0 = (.error e3,
              { s0 with job := { s0.job with progress := 25 + idx * 20 + 10 },
                        aiCalls := s0.aiCalls + 1 }) := by
            simp [runAttempts, genPathOf, hcov, run_bind, run_jobDo, hu, run_pModify, run_pLift, henvg,
              hnf, hval, hu2, hrt]
          rw [hbody]
          exact ⟨hr, rfl, fun w => w, by intro lr h; exact absurd h (by simp)⟩
        case ok =>
        cases hfind : findFileCoverage (env.attempts idx).parsedReport.files acc.cf.path with
        | some fc =>
          rcases hcr : CoveragePercentage.create fc.percentage with e4 | w
          case error =>
            have hbody : runAttempts cfg env tfp (fuel + 1) idx acc s0 = (.error e4,
                { s0 with job := { s0.job with progress := 25 + idx * 20 + 10 },
                          aiCalls := s0.aiCalls + 1,
                          lastReport := some (env.attempts idx).parsedReport }) := by
              simp [runAttempts, genPathOf, hcov, run_bind, run_jobDo, hu, run_pModify, run_pLift, henvg,
                hnf, hval, hu2, hrt, hfind, hcr]
            rw [hbody]
            exact ⟨hr, rfl, fun w => w, by intro lr h; exact absurd h (by simp)⟩
          case ok =>
            have hw : w = fc.percentage := by
              unfold CoveragePercentage.create at hcr
              split at hcr
              · injection hcr with h; exact h.symm
              · exact absurd hcr (by simp)
            subst hw
            by_cases hth : fc.percentage ≥ cfg.coverageThreshold
            case pos =>
              have hbody : runAttempts cfg env tfp (fuel + 1) idx acc s0 =
                  (.ok { cf := acc.cf.updateCoverage fc.percentage fc.uncoveredLines,
                         currentCoverage := fc.percentage,
                         currentUncoveredLines := fc.uncoveredLines,
                         generatedTestPath := some (genPathOf env idx tfp acc.cf.path) },
                  { s0 with job := { s0.job with progress := 25 + idx * 20 + 10 },
                            aiCalls := s0.aiCalls + 1,
                            lastReport := some (env.attempts idx).parsedReport,
                            covStore := s0.covStore.save
                              (acc.cf.updateCoverage fc.percentage fc.uncoveredLines) }) := by
                simp [runAttempts, genPathOf, hcov, run_bind, run_jobDo, hu, run_pModify, run_pLift, henvg,
                  hnf, hval, hu2, hrt, hfind, hcr, run_saveCoverageFile, hth, run_pure]
              rw [hbody]
              refine ⟨hr, rfl, fun ww => wellKeyed_save ww _, ?_⟩
              intro lr hlr
              injection hlr with h
              subst h
              exact ⟨rfl, rfl, Or.inr ⟨idx, rfl, Or.inl ⟨fc, hfind, rfl⟩⟩⟩
            case neg =>
              have hbody : runAttempts cfg env tfp (fuel + 1) idx acc s0 =
                  runAttempts cfg env tfp fuel (idx + 1)
                    { cf := acc.cf.updateCoverage fc.percentage fc.uncoveredLines,
                      currentCoverage := fc.percentage,
                      currentUncoveredLines := fc.uncoveredLines,
                      generatedTestPath := some (genPathOf env idx tfp acc.cf.path) }
                    { s0 with job := { s0.job with progress := 25 + idx * 20 + 10 },
                              aiCalls := s0.aiCalls + 1,
                              lastReport := some (env.attempts idx).parsedReport,
                              covStore := s0.covStore.save
                                (acc.cf.updateCoverage fc.percentage fc.uncoveredLines) } := by
                simp [runAttempts, genPathOf, hcov, run_bind, run_jobDo, hu, run_pModify, run_pLift, henvg,
                  hnf, hval, hu2, hrt, hfind, hcr, run_saveCoverageFile, hth, run_pure]
              rw [hbody]
              obtain ⟨ih1, ih2, ih3, ih4⟩ := ih (idx + 1)
                { cf := acc.cf.updateCoverage fc.percentage fc.uncoveredLines,
                  currentCoverage := fc.percentage,
                  currentUncoveredLines := fc.uncoveredLines,
                  generatedTestPath := some (genPathOf env idx tfp acc.cf.path) }
                { s0 with job := { s0.job with progress := 25 + idx * 20 + 10 },
                          aiCalls := s0.aiCalls + 1,
                          lastReport := some (env.attempts idx).parsedReport,
                          covStore := s0.covStore.save
                            (acc.cf.updateCoverage fc.percentage fc.uncoveredLines) } hr
              refine ⟨ih1, ih2, fun ww => ih3 (wellKeyed_save ww _), ?_⟩
              intro lr hlr
              obtain ⟨hid, hpath, hdisj⟩ := ih4 lr hlr
              refine ⟨hid, hpath, ?_⟩
              rcases hdisj with ⟨hlast, hcur⟩ | ⟨i, hlast, hmatch⟩
              · exact Or.inr ⟨idx, hlast, Or.inl ⟨fc, hfind, hcur⟩⟩
              · exact Or.inr ⟨i, hlast, hmatch⟩
        | none =>
          by_cases hth : (env.attempts idx).parsedReport.totalCoverage ≥ cfg.coverageThreshold
          case pos =>
            have hbody : runAttempts cfg env tfp (fuel + 1) idx acc s0 =
                (.ok { acc with
                        currentCoverage := (env.attempts idx).parsedReport.totalCoverage,
                        generatedTestPath := some (genPathOf env idx tfp acc.cf.path) },
                { s0 with job := { s0.job with progress := 25 + idx * 20 + 10 },
                          aiCalls := s0.aiCalls + 1,
                          lastReport := some (env.attempts idx).parsedReport }) := by
              simp [runAttempts, genPathOf, hcov, run_bind, run_jobDo, hu, run_pModify, run_pLift, henvg,
                hnf, hval, hu2, hrt, hfind, hth, run_pure]
            rw [hbody]
            refine ⟨hr, rfl, fun w => w, ?_⟩
            intro lr hlr
            injection hlr with h
            subst h
            exact ⟨rfl, rfl, Or.inr ⟨idx, rfl, Or.inr ⟨hfind, rfl⟩⟩⟩
          case neg =>
            have hbody : runAttempts cfg env tfp (fuel + 1) idx acc s0 =
                runAttempts cfg env tfp fuel (idx + 1)
                  { acc with
                     currentCoverage := (env.attempts idx).parsedReport.totalCoverage,
                     generatedTestPath := some (genPathOf env idx tfp acc.cf.path) }
                  { s0 with job := { s0.job with progress := 25 + idx * 20 + 10 },
                            aiCalls := s0.aiCalls + 1,
                            lastReport := some (env.attempts idx).parsedReport } := by
              simp [runAttempts, genPathOf, hcov, run_bind, run_jobDo, hu, run_pModify, run_pLift, henvg,
                hnf, hval, hu2, hrt, hfind, hth, run_pure]
            rw [hbody]
            obtain ⟨ih1, ih2, ih3, ih4⟩ := ih (idx + 1)
              { acc with
                 currentCoverage := (env.attempts idx).parsedReport.totalCoverage,
                 generatedTestPath := some (genPathOf env idx tfp acc.cf.path) }
              { s0 with job := { s0.job with progress := 25 + idx * 20 + 10 },
                        aiCalls := s0.aiCalls + 1,
                        lastReport := some (env.attempts idx).parsedReport } hr
            refine ⟨ih1, ih2, ih3, ?_⟩
            intro lr hlr
            obtain ⟨hid, hpath, hdisj⟩ := ih4 lr hlr
            refine ⟨hid, hpath, ?_⟩
            rcases hdisj with ⟨hlast, hcur⟩ | ⟨i, hlast, hmatch⟩
            · exact Or.inr ⟨idx, hlast, Or.inr ⟨hfind, hcur⟩⟩
            · exact Or.inr ⟨i, hlast, hmatch⟩

/-- Characterization of `improveFinish` from a running job.  On a throw the
store is untouched and the job is still running unless the throw came from
the percentage validation after completion; on success the job is completed,
the target file is saved as `markAsImproved` with the loop's final
percentage and cleared uncovered lines, and the committed files are exactly
the post-containment changed files, all of them test files. -/
theorem improveFinish_spec (env : ImproveEnv) (lr : LoopRes) (s0 : ISt)
    (hr : s0.job.status = .running) :
    (improveFinish env lr s0).2.lastReport = s0.lastReport ∧
    ((improveFinish env lr s0).2.committedFiles = s0.committedFiles ∨
      ((improveFinish env lr s0).2.committedFiles =
          some (getChangedPaths (resetNonTestFiles env.finalChanges)) ∧
        (getChangedPaths (resetNonTestFiles env.finalChanges)).filter
          (fun f => !isTestFile f) = [])) ∧
    (∀ e, (improveFinish env lr s0).1 = .error e →
       (improveFinish env lr s0).2.covStore = s0.covStore ∧
       ((improveFinish env lr s0).2.job.status = .running ∨
        (improveFinish env lr s0).2.job.status = .completed) ∧
       (0 ≤ lr.currentCoverage ∧ lr.currentCoverage ≤ 10000 →
          (improveFinish env lr s0).2.job.status = .running)) ∧
    (∀ j, (improveFinish env lr s0).1 = .ok j →
       j = (improveFinish env lr s0).2.job ∧ j.status = .completed ∧
       (improveFinish env lr s0).2.covStore =
         s0.covStore.save (lr.cf.markAsImproved lr.currentCoverage []) ∧
       (improveFinish env lr s0).2.committedFiles =
         some (getChangedPaths (resetNonTestFiles env.finalChanges)) ∧
       (getChangedPaths (resetNonTestFiles env.finalChanges)).filter
         (fun f => !isTestFile f) = [] ∧
       lr.generatedTestPath.isNone = false) := by
  have h70 : s0.job.updateProgress 70 = .ok { s0.job with progress := 70 } :=
    Job.updateProgress_of_running _ _ hr (by omega)
  have h80 : ({ s0.job with progress := 70 } : Job).updateProgress 80 =
      .ok { s0.job with progress := 80 } :=
    Job.updateProgress_of_running _ _ (by exact hr) (by omega)
  have h90 : ({ s0.job with progress := 80 } : Job).updateProgress 90 =
      .ok { s0.job with progress := 90 } :=
    Job.updateProgress_of_running _ _ (by exact hr) (by omega)
  cases hgtp : lr.generatedTestPath.isNone with
  | true =>
    have hbody : improveFinish env lr s0 = (.error "No test file was generated", s0) := by
      simp [improveFinish, run_bind, run_pThrow, hgtp]
    rw [hbody]
    exact ⟨rfl, Or.inl rfl, fun e he => ⟨rfl, Or.inl hr, fun _ => hr⟩,
      fun j hj => absurd hj (by simp)⟩
  | false =>
  cases hinv : ((getChangedPaths (resetNonTestFiles env.finalChanges)).filter
      (fun f => !isTestFile f)).isEmpty with
  | false =>
    have hbody : improveFinish env lr s0 =
        (.error ("Invalid files modified: " ++ String.intercalate ", "
          ((getChangedPaths (resetNonTestFiles env.finalChanges)).filter
            (fun f => !isTestFile f))),
        { s0 with job := { s0.job with progress := 70 } }) := by
      simp [improveFinish, run_bind, run_pThrow, run_pure, hgtp, run_jobDo, h70, hinv]
    rw [hbody]
    exact ⟨rfl, Or.inl rfl, fun e he => ⟨rfl, Or.inl hr, fun _ => hr⟩,
      fun j hj => absurd hj (by simp)⟩
  | true =>
  have hempty : (getChangedPaths (resetNonTestFiles env.finalChanges)).filter
      (fun f => !isTestFile f) = [] := List.isEmpty_iff.mp hinv
  rcases hcmt : env.commitResult with e1 | u1
  case error =>
    have hbody : improveFinish env lr s0 = (.error e1,
        { s0 with job := { s0.job with progress := 80 },
                  committedFiles := some (getChangedPaths (resetNonTestFiles env.finalChanges)) }) := by
      simp [improveFinish, run_bind, run_pThrow, run_pure, hgtp, run_jobDo, run_pModify,
        run_pLift, h70, h80, hinv, hcmt]
    rw [hbody]
    exact ⟨rfl, Or.inr ⟨rfl, hempty⟩, fun e he => ⟨rfl, Or.inl hr, fun _ => hr⟩,
      fun j hj => absurd hj (by simp)⟩
  case ok =>
  rcases hpr : env.prResult with e2 | prUrl
  case error =>
    have hbody : improveFinish env lr s0 = (.error e2,
        { s0 with job := { s0.job with progress := 90 },
                  committedFiles := some (getChangedPaths (resetNonTestFiles env.finalChanges)) }) := by
      simp [improveFinish, run_bind, run_pThrow, run_pure, hgtp, run_jobDo, run_pModify,
        run_pLift, h70, h80, h90, hinv, hcmt, hpr]
    rw [hbody]
    exact ⟨rfl, Or.inr ⟨rfl, hempty⟩, fun e he => ⟨rfl, Or.inl hr, fun _ => hr⟩,
      fun j hj => absurd hj (by simp)⟩
  case ok =>
  rcases hci : ({ s0.job with progress := 90 } : Job).completeImprovement prUrl with e3 | j3
  case error =>
    have hbody : improveFinish env lr s0 = (.error e3,
        { s0 with job := { s0.job with progress := 90 },
                  committedFiles := some (getChangedPaths (resetNonTestFiles env.finalChanges)) }) := by
      simp [improveFinish, run_bind, run_pThrow, run_pure, hgtp, run_jobDo, run_pModify,
        run_pLift, h70, h80, h90, hinv, hcmt, hpr, hci]
    rw [hbody]
    exact ⟨rfl, Or.inr ⟨rfl, hempty⟩, fun e he => ⟨rfl, Or.inl hr, fun _ => hr⟩,
      fun j hj => absurd hj (by simp)⟩
  case ok =>
  have hj3 := Job.completeImprovement_ok _ _ _ hci
  rcases hcr : CoveragePercentage.create lr.currentCoverage with e4 | w
  case error =>
    have hbody : improveFinish env lr s0 = (.error e4,
        { s0 with job := j3,
                  committedFiles := some (getChangedPaths (resetNonTestFiles env.finalChanges)) }) := by
      simp [improveFinish, run_bind, run_pThrow, run_pure, hgtp, run_jobDo, run_pModify,
        run_pLift, h70, h80, h90, hinv, hcmt, hpr, hci, hcr]
    rw [hbody]
    refine ⟨rfl, Or.inr ⟨rfl, hempty⟩, fun e he => ⟨rfl, Or.inr hj3.1, ?_⟩,
      fun j hj => absurd hj (by simp)⟩
    intro hrange
    exact absurd hcr (by rw [CoveragePercentage.create_of_range _ hrange]; simp)
  case ok =>
    have hw : w = lr.currentCoverage := by
      unfold CoveragePercentage.create at hcr
      split at hcr
      · injection hcr with h; exact h.symm
      · exact absurd hcr (by simp)
    subst hw
    have hbody : improveFinish env lr s0 = (.ok j3,
        { s0 with job := j3,
                  committedFiles := some (getChangedPaths (resetNonTestFiles env.finalChanges)),
                  covStore := s0.covStore.save (lr.cf.markAsImproved lr.currentCoverage []) }) := by
      simp [improveFinish, run_bind, run_pThrow, run_pure, hgtp, run_jobDo, run_pModify,
        run_pLift, run_pGet, run_saveCoverageFile, h70, h80, h90, hinv, hcmt, hpr, hci, hcr]
    rw [hbody]
    refine ⟨rfl, Or.inr ⟨rfl, hempty⟩, fun e he => absurd he (by simp), ?_⟩
    intro j hj
    injection hj with h
    subst h
    exact ⟨rfl, hj3.1, rfl, rfl, hempty, rfl⟩

/-- The `catch` handler from a running job: it returns the failed job and,
when the job targets a coverage file that exists in the store, that file is
reset to `pending` in the store. -/
theorem catchImprove_spec (msg : String) (s0 : ISt) (hr : s0.job.status = .running) :
    (catchImprove msg s0).1 = .ok ((catchImprove msg s0).2.job) ∧
    (catchImprove msg s0).2.job = { s0.job with status := .failed, error := some msg } ∧
    (wellKeyed s0.covStore →
      ∀ fid, s0.job.fileId = some fid →
        ∀ cf', (catchImprove msg s0).2.covStore fid = some cf' → cf'.status = .pending) ∧
    (catchImprove msg s0).2.committedFiles = s0.committedFiles := by
  have hfail := Job.fail_of_running s0.job msg hr
  cases hfid : s0.job.fileId with
  | none =>
    have hbody : catchImprove msg s0 =
        (.ok { s0.job with status := .failed, error := some msg },
         { s0 with job := { s0.job with status := .failed, error := some msg } }) := by
      simp [catchImprove, run_bind, run_jobDo, run_pGet, run_pure, hfail, hfid]
    rw [hbody]
    exact ⟨rfl, rfl, fun _ fid h => absurd h (by simp [hfid]), rfl⟩
  | some fid =>
    cases hcf : s0.covStore fid with
    | none =>
      have hbody : catchImprove msg s0 =
          (.ok { s0.job with status := .failed, error := some msg },
           { s0 with job := { s0.job with status := .failed, error := some msg } }) := by
        simp [catchImprove, run_bind, run_jobDo, run_pGet, run_pure, hfail, hfid, hcf]
      rw [hbody]
      refine ⟨rfl, rfl, ?_, rfl⟩
      intro _ fid' hfid' cf' hcf'
      injection hfid' with h
      subst h
      rw [hcf] at hcf'
      exact absurd hcf' (by simp)
    | some cf =>
      have hbody : catchImprove msg s0 =
          (.ok { s0.job with status := .failed, error := some msg },
           { s0 with job := { s0.job with status := .failed, error := some msg },
                     covStore := s0.covStore.save cf.resetToPending }) := by
        simp [catchImprove, run_bind, run_jobDo, run_pGet, run_pure, run_saveCoverageFile,
          hfail, hfid, hcf]
      rw [hbody]
      refine ⟨rfl, rfl, ?_, rfl⟩
      intro hwk fid' hfid' cf' hcf'
      injection hfid' with h
      have hcfF : s0.covStore fid' = some cf := by rw [← h]; exact hcf
      have hid : cf.id = fid' := hwk fid' cf hcfF
      have hcf2 : CovStore.save s0.covStore cf.resetToPending fid' = some cf' := hcf'
      have hsave : CovStore.save s0.covStore cf.resetToPending fid' = some cf.resetToPending := by
        simp [CovStore.save, CoverageFile.resetToPending, hid]
      rw [hsave] at hcf2
      injection hcf2 with h2
      rw [← h2]
      rfl

/-- The `catch` handler on a completed job: `job.fail` itself throws and the
exception escapes the handler. -/
theorem catchImprove_of_completed (msg : String) (s0 : ISt)
    (hc : s0.job.status = .completed) :
    catchImprove msg s0 =
      (.error "Invalid status transition from completed to failed", s0) := by
  have hfail : s0.job.fail msg = .error "Invalid status transition from completed to failed" := by
    simp [Job.fail, Job.transitionTo, hc, canTransitionTo, JobStatusV.value, bind, Except.bind]
  simp [catchImprove, run_bind, run_jobDo, hfail]

/-- Well-formedness of the parser collaborator's outputs, per the spec's
§4.4 contract and glossary: percentages lie in the 0–100 range
(0–10000 centi-percent). -/
def improveEnvWF (env : ImproveEnv) : Prop :=
  ∀ i, (∀ fc ∈ (env.attempts i).parsedReport.files,
          0 ≤ fc.percentage ∧ fc.percentage ≤ 10000) ∧
       0 ≤ (env.attempts i).parsedReport.totalCoverage ∧
       (env.attempts i).parsedReport.totalCoverage ≤ 10000

/-- Stored coverage percentages lie in the valid range. -/
def covStoreWF (s : CovStore) : Prop :=
  ∀ i cf, s i = some cf → 0 ≤ cf.coveragePercentage ∧ cf.coveragePercentage ≤ 10000

theorem findFileCoverage_mem {files : List FileCov} {p : String} {fc : FileCov}
    (h : findFileCoverage files p = some fc) : fc ∈ files := by
  unfold findFileCoverage at h
  cases h1 : findExact files p with
  | some fc1 =>
    rw [h1] at h; injection h with h; subst h
    exact List.mem_of_find?_eq_some h1
  | none =>
    rw [h1] at h
    cases h2 : findBySuffix files p with
    | some fc2 =>
      rw [h2] at h; injection h with h; subst h
      exact List.mem_of_find?_eq_some h2
    | none =>
      rw [h2] at h
      exact List.mem_of_find?_eq_some h

/-- Composition of the three phases of the `try` block, from a pending job:
committed files are only ever the validated post-containment set; a throw
leaves the job running (completed only when the post-completion percentage
validation rejected an out-of-range value, which well-formed collaborator
outputs exclude); a normal return yields a completed job and stores the
target file as improved with the characterized percentage. -/
theorem tryImprove_spec (cfg : ProcessorConfig) (env : ImproveEnv)
    (repos : String → Option RepoRec) (s0 : ISt) (hp : s0.job.status = .pending) :
    ((tryImprove cfg env repos s0).2.committedFiles = s0.committedFiles ∨
      ((tryImprove cfg env repos s0).2.committedFiles =
          some (getChangedPaths (resetNonTestFiles env.finalChanges)) ∧
        (getChangedPaths (resetNonTestFiles env.finalChanges)).filter
          (fun f => !isTestFile f) = [])) ∧
    (∀ e, (tryImprove cfg env repos s0).1 = .error e →
       ((tryImprove cfg env repos s0).2.job.status = .running ∨
        (tryImprove cfg env repos s0).2.job.status = .completed) ∧
       (wellKeyed s0.covStore → wellKeyed (tryImprove cfg env repos s0).2.covStore) ∧
       (improveEnvWF env → covStoreWF s0.covStore →
          (tryImprove cfg env repos s0).2.job.status = .running)) ∧
    (∀ j, (tryImprove cfg env repos s0).1 = .ok j →
       j.status = .completed ∧
       (wellKeyed s0.covStore → wellKeyed (tryImprove cfg env repos s0).2.covStore) ∧
       ((tryImprove cfg env repos s0).2.committedFiles =
           some (getChangedPaths (resetNonTestFiles env.finalChanges)) ∧
         (getChangedPaths (resetNonTestFiles env.finalChanges)).filter
           (fun f => !isTestFile f) = []) ∧
       (∀ fid cf0, wellKeyed s0.covStore → s0.job.fileId = some fid →
          s0.covStore fid = some cf0 →
          ∃ cf', (tryImprove cfg env repos s0).2.covStore fid = some cf' ∧
            cf'.status = .improved ∧ cf'.uncoveredLines = [] ∧ cf'.path = cf0.path ∧
            (((tryImprove cfg env repos s0).2.lastReport = s0.lastReport ∧
                cf'.coveragePercentage = cf0.coveragePercentage) ∨
             (∃ i, (tryImprove cfg env repos s0).2.lastReport =
                  some (env.attempts i).parsedReport ∧
                ((∃ fc, findFileCoverage (env.attempts i).parsedReport.files cf0.path =
                      some fc ∧ cf'.coveragePercentage = fc.percentage) ∨
                 (findFileCoverage (env.attempts i).parsedReport.files cf0.path = none ∧
                    cf'.coveragePercentage =
                      (env.attempts i).parsedReport.totalCoverage)))))) := by
  obtain ⟨hst, hai, hcmf, hlrp, hjob, hok⟩ := improveSetup_spec env repos s0 hp
  rcases hsr : improveSetup env repos s0 with ⟨r1, s1⟩
  rw [hsr] at hst hai hcmf hlrp hjob hok
  dsimp only at hst hai hcmf hlrp hjob hok
  cases r1 with
  | error e1 =>
    have hrun : tryImprove cfg env repos s0 = (.error e1, s1) := by
      unfold tryImprove
      rw [run_bind, hsr]
    rw [hrun]
    refine ⟨Or.inl hcmf, fun e he => ⟨Or.inl hjob, fun w => hst ▸ w, fun _ _ => hjob⟩, ?_⟩
    intro j hj
    exact absurd hj (by simp)
  | ok v =>
    obtain ⟨hv, hjeq⟩ := hok v rfl
    have hrun : tryImprove cfg env repos s0 =
        (runAttempts cfg env v.2.2 cfg.maxRetries 0
          { cf := v.2.1, currentCoverage := v.2.1.coveragePercentage,
            currentUncoveredLines := v.2.1.uncoveredLines, generatedTestPath := none } >>=
          fun lr => improveFinish env lr) s1 := by
      unfold tryImprove
      rw [run_bind, hsr]
    have hloop := runAttempts_spec cfg env v.2.2 cfg.maxRetries 0
      { cf := v.2.1, currentCoverage := v.2.1.coveragePercentage,
        currentUncoveredLines := v.2.1.uncoveredLines, generatedTestPath := none } s1
      (by rw [hjeq])
    rcases hlrr : runAttempts cfg env v.2.2 cfg.maxRetries 0
        { cf := v.2.1, currentCoverage := v.2.1.coveragePercentage,
          currentUncoveredLines := v.2.1.uncoveredLines, generatedTestPath := none } s1
      with ⟨r2, s2⟩
    rw [hlrr] at hloop
    dsimp only at hloop
    obtain ⟨hl_run, hl_cmf, hl_wk, hl_ok⟩ := hloop
    have hrun2 : tryImprove cfg env repos s0 =
        match r2 with
        | .ok lr => improveFinish env lr s2
        | .error e => (.error e, s2) := by
      rw [hrun, run_bind]
      simp only [hlrr]
      cases r2 <;> rfl
    cases r2 with
    | error e2 =>
      rw [hrun2]
      refine ⟨Or.inl (hl_cmf.trans hcmf), fun e he => ⟨Or.inl hl_run, ?_, fun _ _ => hl_run⟩, ?_⟩
      · intro w
        exact hl_wk (hst ▸ w)
      · intro j hj
        exact absurd hj (by simp)
    | ok lr =>
      obtain ⟨hfin_lrp, hfin_cmf, hfin_err, hfin_ok⟩ := improveFinish_spec env lr s2 hl_run
      obtain ⟨hlid, hlpath, hldisj⟩ := hl_ok lr rfl
      rw [hrun2]
      refine ⟨?_, ?_, ?_⟩
      · rcases hfin_cmf with h | h
        · exact Or.inl (h.trans (hl_cmf.trans hcmf))
        · exact Or.inr h
      · intro e he
        obtain ⟨hfs, hfj, hfr⟩ := hfin_err e he
        refine ⟨hfj, ?_, ?_⟩
        · intro w
          rw [hfs]
          exact hl_wk (hst ▸ w)
        · intro hwf hswf
          apply hfr
          rcases hldisj with ⟨hlast, hcur⟩ | ⟨i, hlast, hmatch⟩
          · rw [hcur]
            rcases hsr2 : s0.job.fileId with _ | fid
            · rw [hsr2] at hv; exact absurd hv (by simp)
            · rw [hsr2] at hv
              simp only [Option.some_bind] at hv
              exact hswf fid v.2.1 hv
          · rcases hmatch with ⟨fc, hfind, hcov⟩ | ⟨hfind, hcov⟩
            · rw [hcov]
              exact (hwf i).1 fc (findFileCoverage_mem hfind)
            · rw [hcov]
              exact (hwf i).2
      · intro j hj
        obtain ⟨hjeq2, hjc, hcov, hcmt, hinv, hgtp⟩ := hfin_ok j hj
        refine ⟨hjc, ?_, ⟨hcmt, hinv⟩, ?_⟩
        · intro w
          rw [hcov]
          exact wellKeyed_save (hl_wk (hst ▸ w)) _
        · intro fid cf0 hwk hfid hcf0
          have hv2 : v.2.1 = cf0 := by
            rw [hfid] at hv
            simp only [Option.some_bind] at hv
            rw [hcf0] at hv
            injection hv with hv
            exact hv.symm
          have hlid2 : lr.cf.id = fid := by
            rw [hlid, hv2]
            exact hwk fid cf0 hcf0
          have hmk : ((lr.cf.markAsImproved lr.currentCoverage []) : CoverageFile).id = fid := by
            simp [CoverageFile.markAsImproved, hlid2]
          refine ⟨lr.cf.markAsImproved lr.currentCoverage [], ?_, rfl, rfl, ?_, ?_⟩
          · rw [hcov]
            simp [CovStore.save, hmk]
          · simp [CoverageFile.markAsImproved]
            rw [hlpath, hv2]
          · have hpctmk : ((lr.cf.markAsImproved lr.currentCoverage []) :
                CoverageFile).coveragePercentage = lr.currentCoverage := rfl
            rw [hpctmk]
            rcases hldisj with ⟨hlast, hcur⟩ | ⟨i, hlast, hmatch⟩
            · left
              refine ⟨?_, ?_⟩
              · rw [hfin_lrp, hlast, hlrp]
              · rw [hcur, hv2]
            · right
              refine ⟨i, by rw [hfin_lrp, hlast], ?_⟩
              rw [hv2] at hmatch
              exact hmatch

/-- Unfolding of the `try`/`catch`/`finally` wrapper of
`executeImprovementJob`. -/
theorem executeImprovementJob_run (cfg : ProcessorConfig) (env : ImproveEnv)
    (repos : String → Option RepoRec) (job : Job) (store : CovStore) :
    executeImprovementJob cfg env repos job store =
      (let r1 := tryImprove cfg env repos
         { job := job, covStore := store, aiCalls := 0, workspaceCreated := false,
           cleaned := false, committedFiles := none, lastReport := none }
       let r2 := match r1.1 with
         | .ok j => (Except.ok j, r1.2)
         | .error msg => catchImprove msg r1.2
       (r2.1, { r2.2 with cleaned := r2.2.workspaceCreated })) := rfl

/-! ## Claim C2 -/

/-- **C2**: for every improvement job that ends in the `failed` status
(including cancellation through `ImprovementService.cancel`), every
`CoverageFile` targeted by the job has status exactly `pending` in the
store when the job reaches its terminal state. -/
theorem c2_failed_improvement_resets_files_to_pending
    (cfg : ProcessorConfig) (env : ImproveEnv) (repos : String → Option RepoRec)
    (job : Job) (store : CovStore) (jobStore : String → Option Job) (jobId : String)
    (hp : job.status = .pending) (hwk : wellKeyed store) :
    (∀ j, (executeImprovementJob cfg env repos job store).1 = .ok j →
       j.status = .failed →
       ∀ fid, j.fileId = some fid →
         ∀ cf', (executeImprovementJob cfg env repos job store).2.covStore fid = some cf' →
           cf'.status = .pending) ∧
    (∀ j' store', cancelJob jobStore store jobId = .ok (j', store') →
       j'.status = .failed ∧
       ∀ fid, j'.fileId = some fid →
         ∀ cf', store' fid = some cf' → cf'.status = .pending) := by
  constructor
  · obtain ⟨htry_cmf, htry_err, htry_ok⟩ := tryImprove_spec cfg env repos
      { job := job, covStore := store, aiCalls := 0, workspaceCreated := false,
        cleaned := false, committedFiles := none, lastReport := none } hp
    rcases hty : tryImprove cfg env repos
        { job := job, covStore := store, aiCalls := 0, workspaceCreated := false,
          cleaned := false, committedFiles := none, lastReport := none }
      with ⟨r1, s1⟩
    rw [hty] at htry_cmf htry_err htry_ok
    dsimp only at htry_cmf htry_err htry_ok
    cases r1 with
    | ok jj =>
      have hw : executeImprovementJob cfg env repos job store =
          (Except.ok jj, { s1 with cleaned := s1.workspaceCreated }) := by
        rw [executeImprovementJob_run]
        simp only [hty]
      intro j hj hjf
      rw [hw] at hj
      injection hj with hj
      subst hj
      obtain ⟨hc, _⟩ := htry_ok jj rfl
      rw [hc] at hjf
      exact absurd hjf (by simp)
    | error msg =>
      obtain ⟨hst12, hwk12, _⟩ := htry_err msg rfl
      cases hst12 with
      | inl hrun1 =>
        obtain ⟨hc1, hc2, hc3, hc4⟩ := catchImprove_spec msg s1 hrun1
        rcases hct : catchImprove msg s1 with ⟨rc, sc⟩
        rw [hct] at hc1 hc2 hc3 hc4
        dsimp only at hc1 hc2 hc3 hc4
        have hw : executeImprovementJob cfg env repos job store =
            (rc, { sc with cleaned := sc.workspaceCreated }) := by
          rw [executeImprovementJob_run]
          simp only [hty, hct]
        intro j hj hjf fid hfid cf' hcf'
        rw [hw] at hj hcf'
        dsimp only at hj hcf'
        rw [hc1] at hj
        injection hj with hj
        have hfid1 : s1.job.fileId = some fid := by
          rw [← hj] at hfid
          rw [hc2] at hfid
          exact hfid
        exact hc3 (hwk12 hwk) fid hfid1 cf' hcf'
      | inr hcomp1 =>
        have hct := catchImprove_of_completed msg s1 hcomp1
        have hw : executeImprovementJob cfg env repos job store =
            (.error "Invalid status transition from completed to failed",
             { s1 with cleaned := s1.workspaceCreated }) := by
          rw [executeImprovementJob_run]
          simp only [hty, hct]
        intro j hj
        rw [hw] at hj
        exact absurd hj (by simp)
  · intro j' store' hc
    cases hjs : jobStore jobId with
    | none =>
      have hbody : cancelJob jobStore store jobId = .error ("Job not found: " ++ jobId) := by
        simp [cancelJob, hjs]
      rw [hbody] at hc
      exact absurd hc (by simp)
    | some jb =>
      by_cases hguard : jb.status ≠ JobStatusV.pending ∧ jb.status ≠ JobStatusV.running
      · have hbody : cancelJob jobStore store jobId =
            .error ("Cannot cancel job in " ++ jb.status.value ++ " status") := by
          simp only [cancelJob, hjs]
          rw [if_pos hguard]
        rw [hbody] at hc
        exact absurd hc (by simp)
      · have hfl : jb.fail "Cancelled by user" =
            .ok { jb with status := .failed, error := some "Cancelled by user" } := by
          rcases hs : jb.status with h | h | h | h
          · exact Job.fail_of_pending jb _ hs
          · exact Job.fail_of_running jb _ hs
          · exact absurd (by rw [hs]; exact ⟨by simp, by simp⟩) hguard
          · exact absurd (by rw [hs]; exact ⟨by simp, by simp⟩) hguard
        cases hfid : jb.fileId with
        | none =>
          have hbody : cancelJob jobStore store jobId =
              .ok ({ jb with status := .failed, error := some "Cancelled by user" }, store) := by
            simp only [cancelJob, hjs]
            rw [if_neg hguard, hfl]
            simp [hfid]
          rw [hbody] at hc
          injection hc with h
          injection h with h1 h2
          subst h1
          subst h2
          refine ⟨rfl, ?_⟩
          intro fid hfid2 cf' hcf'
          simp only [hfid] at hfid2
          exact absurd hfid2 (by simp)
        | some fid =>
          cases hcf : store fid with
          | none =>
            have hbody : cancelJob jobStore store jobId =
                .ok ({ jb with status := .failed, error := some "Cancelled by user" }, store) := by
              simp only [cancelJob, hjs]
              rw [if_neg hguard, hfl]
              simp [hfid, hcf]
            rw [hbody] at hc
            injection hc with h
            injection h with h1 h2
            subst h1
            subst h2
            refine ⟨rfl, ?_⟩
            intro fid' hfid' cf' hcf'
            simp only [hfid] at hfid'
            injection hfid' with h3
            rw [← h3] at hcf'
            rw [hcf] at hcf'
            exact absurd hcf' (by simp)
          | some cf =>
            have hbody : cancelJob jobStore store jobId =
                .ok ({ jb with status := .failed, error := some "Cancelled by user" },
                  store.save cf.resetToPending) := by
              simp only [cancelJob, hjs]
              rw [if_neg hguard, hfl]
              simp [hfid, hcf]
            rw [hbody] at hc
            injection hc with h
            injection h with h1 h2
            subst h1
            subst h2
            refine ⟨rfl, ?_⟩
            intro fid' hfid' cf' hcf'
            simp only [hfid] at hfid'
            injection hfid' with h3
            rw [← h3] at hcf'
            have hid : cf.id = fid := hwk fid cf hcf
            have hsave : CovStore.save store cf.resetToPending fid =
                some cf.resetToPending := by
              simp [CovStore.save, CoverageFile.resetToPending, hid]
            rw [hsave] at hcf'
            injection hcf' with h4
            rw [← h4]
            rfl

/-! ## Concrete sample data used by witnesses and counterexamples -/

/-- A pending improvement job targeting coverage file `f1`. -/
def sampleJob : Job :=
  { id := "j1", type := .improvement, repositoryId := "r1", status := .pending,
    progress := 0, error := none, createdAt := 0, repositoryUrl := none, branch := none,
    filesFound := 0, filesBelowThreshold := 0, fileId := some "f1",
    filePath := some "a.ts", aiProvider := some .claude, prUrl := none }

/-- The targeted coverage file, marked improving at 10%. -/
def sampleCf : CoverageFile :=
  { id := "f1", repositoryId := "r1", path := "a.ts", coveragePercentage := 1000,
    uncoveredLines := [3, 4], status := .improving, projectDir := none }

/-- A store holding exactly `sampleCf`. -/
def sampleStore : CovStore := fun i => if i = "f1" then some sampleCf else none

/-- The owning repository record. -/
def sampleRepo : RepoRec :=
  { id := "r1", url := "https://github.com/u/r", owner := "u", name := "r",
    branch := "main", defaultBranch := "main", analyzed := false }

/-- A repository store holding exactly `sampleRepo`. -/
def sampleRepos : String → Option RepoRec := fun i => if i = "r1" then some sampleRepo else none

/-- A parsed coverage run matching `a.ts` at 90%. -/
def sampleReport : CoverageReport :=
  { files := [{ path := "a.ts", linesCovered := 9, linesTotal := 10,
                percentage := 9000, uncoveredLines := [4] }],
    totalCoverage := 9000 }

/-- A successful AI attempt: one valid changed test file and the matching
coverage run. -/
def sampleAttempt : AttemptEnv :=
  { generateResult := .ok (), changedFiles := ["a.test.ts"],
    expectedTestExists := false, testContent := "describe(a) expect(b)",
    runTestsResult := .ok (), parsedReport := sampleReport }

/-- A fully successful collaborator environment. -/
def sampleEnv : ImproveEnv :=
  { cloneResult := .ok (), installResult := .ok (), branchResult := .ok (),
    sourceExists := true, existsAt := fun _ => false, attempts := fun _ => sampleAttempt,
    finalChanges := [{ path := "a.test.ts", canRevert := false, canDelete := true }],
    commitResult := .ok (), prResult := .ok "https://github.com/u/r/pull/1" }

/-- The same environment with a failing clone. -/
def sampleEnvFail : ImproveEnv := { sampleEnv with cloneResult := .error "clone failed" }

theorem sampleStore_wellKeyed : wellKeyed sampleStore := by
  intro i cf h
  simp only [sampleStore] at h
  split at h
  next heq =>
    injection h with h2
    rw [← h2, heq]
    rfl
  next => exact absurd h (by simp)

/-- **C2 witness**: a concrete pending improvement job whose clone step
fails; the theorem applied at it shows the stored target file is reset to
`pending`. -/
theorem c2_failed_improvement_resets_files_to_pending_witness :
    sampleJob.status = .pending ∧ wellKeyed sampleStore ∧
    ((executeImprovementJob defaultConfig sampleEnvFail sampleRepos sampleJob
        sampleStore).1 =
      .ok { sampleJob with
            status := .failed, progress := 10, error := some "clone failed" }) ∧
    ∀ cf', (executeImprovementJob defaultConfig sampleEnvFail sampleRepos sampleJob
        sampleStore).2.covStore "f1" = some cf' →
      cf'.status = .pending := by
  refine ⟨rfl, sampleStore_wellKeyed, rfl, ?_⟩
  intro cf' h
  exact (c2_failed_improvement_resets_files_to_pending defaultConfig sampleEnvFail
      sampleRepos sampleJob sampleStore (fun _ => none) "x" rfl
      sampleStore_wellKeyed).1
    { sampleJob with
      status := .failed, progress := 10, error := some "clone failed" }
    rfl rfl "f1" rfl cf' h

/-! ## Claim C5 -/

/-- A parsed run whose single file does not match `a.ts` under any of the
three heuristics, with aggregate coverage 85%. -/
def sampleReportNM : CoverageReport :=
  { files := [{ path := "lib/zzz.ts", linesCovered := 9, linesTotal := 10,
                percentage := 9000, uncoveredLines := [4] }],
    totalCoverage := 8500 }

/-- The successful environment, but the coverage run never matches the
target file. -/
def sampleEnvNM : ImproveEnv :=
  { sampleEnv with attempts := fun _ => { sampleAttempt with parsedReport := sampleReportNM } }

/-- **C5 counterexample**: an improvement job that completes successfully
although the last parsed coverage run has no match (exact or heuristic) for
the target file; the stored percentage is *not* left unchanged (10%): it is
overwritten with the run's aggregate coverage (85%). -/
theorem c5_counterexample_no_match_overwrites_percentage :
    ((executeImprovementJob defaultConfig sampleEnvNM sampleRepos sampleJob
        sampleStore).1.toOption.map Job.status = some .completed) ∧
    findFileCoverage sampleReportNM.files sampleCf.path = none ∧
    sampleCf.coveragePercentage = 1000 ∧
    sampleReportNM.totalCoverage = 8500 ∧
    ((executeImprovementJob defaultConfig sampleEnvNM sampleRepos sampleJob
        sampleStore).2.covStore "f1").map CoverageFile.coveragePercentage = some 8500 ∧
    (8500 : ℤ) ≠ 1000 := by
  refine ⟨rfl, by decide, rfl, rfl, rfl, by decide⟩

/-- **C5 (amended)**: for every improvement job execution that returns a
`completed` job, the targeted `CoverageFile` ends with status `improved`,
cleared uncovered lines, and a stored percentage equal to the loop's final
`currentCoverage`: the matched file's percentage from the last parsed
coverage run when a match (exact path, else the directory/basename
heuristics) was found there; that run's aggregate `totalCoverage` when no
match was found; and the file's pre-job percentage when no coverage run was
parsed at all. -/
theorem c5_success_marks_improved_with_final_coverage
    (cfg : ProcessorConfig) (env : ImproveEnv) (repos : String → Option RepoRec)
    (job : Job) (store : CovStore)
    (hp : job.status = .pending) (hwk : wellKeyed store) :
    ∀ j, (executeImprovementJob cfg env repos job store).1 = .ok j →
      j.status = .completed →
      ∀ fid cf0, job.fileId = some fid → store fid = some cf0 →
        ∃ cf', (executeImprovementJob cfg env repos job store).2.covStore fid = some cf' ∧
          cf'.status = .improved ∧ cf'.uncoveredLines = [] ∧ cf'.path = cf0.path ∧
          (((executeImprovementJob cfg env repos job store).2.lastReport = none ∧
              cf'.coveragePercentage = cf0.coveragePercentage) ∨
           (∃ i, (executeImprovementJob cfg env repos job store).2.lastReport =
                some (env.attempts i).parsedReport ∧
              ((∃ fc, findFileCoverage (env.attempts i).parsedReport.files cf0.path =
                    some fc ∧ cf'.coveragePercentage = fc.percentage) ∨
               (findFileCoverage (env.attempts i).parsedReport.files cf0.path = none ∧
                  cf'.coveragePercentage =
                    (env.attempts i).parsedReport.totalCoverage)))) := by
  obtain ⟨htry_cmf, htry_err, htry_ok⟩ := tryImprove_spec cfg env repos
    { job := job, covStore := store, aiCalls := 0, workspaceCreated := false,
      cleaned := false, committedFiles := none, lastReport := none } hp
  rcases hty : tryImprove cfg env repos
      { job := job, covStore := store, aiCalls := 0, workspaceCreated := false,
        cleaned := false, committedFiles := none, lastReport := none }
    with ⟨r1, s1⟩
  rw [hty] at htry_cmf htry_err htry_ok
  dsimp only at htry_cmf htry_err htry_ok
  cases r1 with
  | ok jj =>
    have hw : executeImprovementJob cfg env repos job store =
        (Except.ok jj, { s1 with cleaned := s1.workspaceCreated }) := by
      rw [executeImprovementJob_run]
      simp only [hty]
    intro j hj hjc fid cf0 hfid hcf0
    rw [hw] at hj
    injection hj with hj
    subst hj
    obtain ⟨_, _, _, hstore⟩ := htry_ok jj rfl
    obtain ⟨cf', hcf', himp, hlines, hpath, hdisj⟩ := hstore fid cf0 hwk hfid hcf0
    refine ⟨cf', ?_, himp, hlines, hpath, ?_⟩
    · rw [hw]
      exact hcf'
    · rw [hw]
      exact hdisj
  | error msg =>
    obtain ⟨hst12, hwk12, _⟩ := htry_err msg rfl
    cases hst12 with
    | inl hrun1 =>
      obtain ⟨hc1, hc2, hc3, hc4⟩ := catchImprove_spec msg s1 hrun1
      rcases hct : catchImprove msg s1 with ⟨rc, sc⟩
      rw [hct] at hc1 hc2 hc3 hc4
      dsimp only at hc1 hc2 hc3 hc4
      have hw : executeImprovementJob cfg env repos job store =
          (rc, { sc with cleaned := sc.workspaceCreated }) := by
        rw [executeImprovementJob_run]
        simp only [hty, hct]
      intro j hj hjc
      rw [hw] at hj
      dsimp only at hj
      rw [hc1] at hj
      injection hj with hj
      rw [← hj, hc2] at hjc
      exact absurd hjc (by simp)
    | inr hcomp1 =>
      have hct := catchImprove_of_completed msg s1 hcomp1
      have hw : executeImprovementJob cfg env repos job store =
          (.error "Invalid status transition from completed to failed",
           { s1 with cleaned := s1.workspaceCreated }) := by
        rw [executeImprovementJob_run]
        simp only [hty, hct]
      intro j hj
      rw [hw] at hj
      exact absurd hj (by simp)

/-- **C5 (amended) witness**: the fully successful sample run, where the
last parsed report matches the target exactly: the stored file ends
improved at the matched 90%. -/
theorem c5_success_marks_improved_with_final_coverage_witness :
    sampleJob.status = .pending ∧ wellKeyed sampleStore ∧
    ((executeImprovementJob defaultConfig sampleEnv sampleRepos sampleJob
        sampleStore).1.toOption.map Job.status = some .completed) ∧
    ((executeImprovementJob defaultConfig sampleEnv sampleRepos sampleJob
        sampleStore).2.covStore "f1").map CoverageFile.coveragePercentage = some 9000 ∧
    ∃ cf', (executeImprovementJob defaultConfig sampleEnv sampleRepos sampleJob
        sampleStore).2.covStore "f1" = some cf' ∧
      cf'.status = .improved ∧ cf'.uncoveredLines = [] ∧ cf'.path = sampleCf.path ∧
      (((executeImprovementJob defaultConfig sampleEnv sampleRepos sampleJob
            sampleStore).2.lastReport = none ∧
          cf'.coveragePercentage = sampleCf.coveragePercentage) ∨
       (∃ i, (executeImprovementJob defaultConfig sampleEnv sampleRepos sampleJob
            sampleStore).2.lastReport = some (sampleEnv.attempts i).parsedReport ∧
          ((∃ fc, findFileCoverage (sampleEnv.attempts i).parsedReport.files
                sampleCf.path = some fc ∧ cf'.coveragePercentage = fc.percentage) ∨
           (findFileCoverage (sampleEnv.attempts i).parsedReport.files sampleCf.path =
              none ∧
              cf'.coveragePercentage =
                (sampleEnv.attempts i).parsedReport.totalCoverage)))) := by
  have happ := c5_success_marks_improved_with_final_coverage defaultConfig sampleEnv
    sampleRepos sampleJob sampleStore rfl sampleStore_wellKeyed
  refine ⟨rfl, sampleStore_wellKeyed, rfl, rfl, ?_⟩
  exact happ _ rfl rfl "f1" sampleCf rfl rfl

/-! ## Claim C1 -/

/-- **C1**: containment.  After the AI agent runs, `resetNonTestFiles`
removes every changed non-test file that can be reverted or deleted (a
non-test entry survives only when both remediation steps fail) and never
touches test files; the re-enumeration check makes any run that still has a
non-test change fail (a returned `completed` job implies every surviving
changed file is a test file); consequently the set of files passed to
`commitAndPush` contains only recognized test files. -/
theorem c1_containment_only_test_files_survive_and_commit
    (cfg : ProcessorConfig) (env : ImproveEnv) (repos : String → Option RepoRec)
    (job : Job) (store : CovStore) (hp : job.status = .pending) :
    (∀ (ws : List ChangeEntry) (e : ChangeEntry), e ∈ resetNonTestFiles ws →
       isTestFile e.path = false → e.canRevert = false ∧ e.canDelete = false) ∧
    (∀ (ws : List ChangeEntry) (e : ChangeEntry), e ∈ ws → isTestFile e.path = true →
       e ∈ resetNonTestFiles ws) ∧
    (∀ fs, (executeImprovementJob cfg env repos job store).2.committedFiles = some fs →
       ∀ f ∈ fs, isTestFile f = true) ∧
    (∀ j, (executeImprovementJob cfg env repos job store).1 = .ok j →
       j.status = .completed →
       ∀ e ∈ resetNonTestFiles env.finalChanges, isTestFile e.path = true) := by
  have hsurv : ∀ (ws : List ChangeEntry) (e : ChangeEntry), e ∈ resetNonTestFiles ws →
      isTestFile e.path = false → e.canRevert = false ∧ e.canDelete = false := by
    intro ws e he ht
    unfold resetNonTestFiles at he
    have := List.of_mem_filter he
    rw [ht] at this
    simp at this
    exact this
  have hvalid : ∀ fs, (getChangedPaths (resetNonTestFiles env.finalChanges)).filter
      (fun f => !isTestFile f) = [] → fs = getChangedPaths (resetNonTestFiles env.finalChanges) →
      ∀ f ∈ fs, isTestFile f = true := by
    intro fs hnil hfs f hf
    rw [hfs] at hf
    have := List.filter_eq_nil_iff.mp hnil f hf
    simpa using this
  obtain ⟨htry_cmf, htry_err, htry_ok⟩ := tryImprove_spec cfg env repos
    { job := job, covStore := store, aiCalls := 0, workspaceCreated := false,
      cleaned := false, committedFiles := none, lastReport := none } hp
  rcases hty : tryImprove cfg env repos
      { job := job, covStore := store, aiCalls := 0, workspaceCreated := false,
        cleaned := false, committedFiles := none, lastReport := none }
    with ⟨r1, s1⟩
  rw [hty] at htry_cmf htry_err htry_ok
  dsimp only at htry_cmf htry_err htry_ok
  refine ⟨hsurv, ?_, ?_, ?_⟩
  · intro ws e he ht
    unfold resetNonTestFiles
    refine List.mem_filter.mpr ⟨he, ?_⟩
    rw [ht]
    rfl
  · cases r1 with
    | ok jj =>
      have hw : executeImprovementJob cfg env repos job store =
          (Except.ok jj, { s1 with cleaned := s1.workspaceCreated }) := by
        rw [executeImprovementJob_run]
        simp only [hty]
      intro fs hfs
      rw [hw] at hfs
      dsimp only at hfs
      rcases htry_cmf with h | ⟨h, hnil⟩
      · rw [h] at hfs
        exact absurd hfs (by simp)
      · rw [h] at hfs
        injection hfs with hfs
        exact hvalid fs hnil hfs.symm
    | error msg =>
      obtain ⟨hst12, _, _⟩ := htry_err msg rfl
      cases hst12 with
      | inl hrun1 =>
        obtain ⟨hc1, hc2, hc3, hc4⟩ := catchImprove_spec msg s1 hrun1
        rcases hct : catchImprove msg s1 with ⟨rc, sc⟩
        rw [hct] at hc1 hc2 hc3 hc4
        dsimp only at hc1 hc2 hc3 hc4
        have hw : executeImprovementJob cfg env repos job store =
            (rc, { sc with cleaned := sc.workspaceCreated }) := by
          rw [executeImprovementJob_run]
          simp only [hty, hct]
        intro fs hfs
        rw [hw] at hfs
        dsimp only at hfs
        rw [hc4] at hfs
        rcases htry_cmf with h | ⟨h, hnil⟩
        · rw [h] at hfs
          exact absurd hfs (by simp)
        · rw [h] at hfs
          injection hfs with hfs
          exact hvalid fs hnil hfs.symm
      | inr hcomp1 =>
        have hct := catchImprove_of_completed msg s1 hcomp1
        have hw : executeImprovementJob cfg env repos job store =
            (.error "Invalid status transition from completed to failed",
             { s1 with cleaned := s1.workspaceCreated }) := by
          rw [executeImprovementJob_run]
          simp only [hty, hct]
        intro fs hfs
        rw [hw] at hfs
        dsimp only at hfs
        rcases htry_cmf with h | ⟨h, hnil⟩
        · rw [h] at hfs
          exact absurd hfs (by simp)
        · rw [h] at hfs
          injection hfs with hfs
          exact hvalid fs hnil hfs.symm
  · cases r1 with
    | ok jj =>
      have hw : executeImprovementJob cfg env repos job store =
          (Except.ok jj, { s1 with cleaned := s1.workspaceCreated }) := by
        rw [executeImprovementJob_run]
        simp only [hty]
      intro j hj hjc e he
      obtain ⟨_, _, ⟨_, hnil⟩, _⟩ := htry_ok jj rfl
      have hmem : e.path ∈ getChangedPaths (resetNonTestFiles env.finalChanges) :=
        List.mem_map.mpr ⟨e, he, rfl⟩
      have := List.filter_eq_nil_iff.mp hnil e.path hmem
      simpa using this
    | error msg =>
      obtain ⟨hst12, _, _⟩ := htry_err msg rfl
      cases hst12 with
      | inl hrun1 =>
        obtain ⟨hc1, hc2, hc3, hc4⟩ := catchImprove_spec msg s1 hrun1
        rcases hct : catchImprove msg s1 with ⟨rc, sc⟩
        rw [hct] at hc1 hc2 hc3 hc4
        dsimp only at hc1 hc2 hc3 hc4
        have hw : executeImprovementJob cfg env repos job store =
            (rc, { sc with cleaned := sc.workspaceCreated }) := by
          rw [executeImprovementJob_run]
          simp only [hty, hct]
        intro j hj hjc
        rw [hw] at hj
        dsimp only at hj
        rw [hc1] at hj
        injection hj with hj
        rw [← hj, hc2] at hjc
        exact absurd hjc (by simp)
      | inr hcomp1 =>
        have hct := catchImprove_of_completed msg s1 hcomp1
        have hw : executeImprovementJob cfg env repos job store =
            (.error "Invalid status transition from completed to failed",
             { s1 with cleaned := s1.workspaceCreated }) := by
          rw [executeImprovementJob_run]
          simp only [hty, hct]
        intro j hj
        rw [hw] at hj
        exact absurd hj (by simp)

/-- **C1 witness**: in the successful sample run the files passed to
`commitAndPush` are exactly `a.test.ts`, and the theorem applied at this
run certifies they are all test files; the pure remediation facts are
instantiated on a two-entry workspace. -/
theorem c1_containment_witness :
    sampleJob.status = .pending ∧
    ((executeImprovementJob defaultConfig sampleEnv sampleRepos sampleJob
        sampleStore).2.committedFiles = some ["a.test.ts"]) ∧
    (∀ f ∈ ["a.test.ts"], isTestFile f = true) := by
  have happ := c1_containment_only_test_files_survive_and_commit defaultConfig sampleEnv
    sampleRepos sampleJob sampleStore rfl
  refine ⟨rfl, rfl, ?_⟩
  exact happ.2.2.1 ["a.test.ts"] rfl

/-! ## Claim C10 -/

/-- The generation loop performs zero iterations when the current coverage
already meets the threshold. -/
theorem runAttempts_at_threshold (cfg : ProcessorConfig) (env : ImproveEnv)
    (tfp : Option String) (fuel idx : ℕ) (acc : LoopRes) (s : ISt)
    (h : ¬acc.currentCoverage < cfg.coverageThreshold) :
    runAttempts cfg env tfp fuel idx acc s = (.ok acc, s) := by
  cases fuel with
  | zero => rfl
  | succ n => simp [runAttempts, h, run_pure]

/-- `improveFinish` throws `No test file was generated` when the loop never
assigned a generated test path. -/
theorem improveFinish_noGen (env : ImproveEnv) (lr : LoopRes) (s : ISt)
    (h : lr.generatedTestPath = none) :
    improveFinish env lr s = (.error "No test file was generated", s) := by
  simp [improveFinish, run_bind, run_pThrow, h]

/-- **C10**: when the targeted file's recorded coverage is already at or
above the configured threshold (default 80%), the generation loop executes
zero iterations — the AI provider is never invoked — the job fails with
`No test file was generated`, and the file is reset to `pending`. -/
theorem c10_at_threshold_fails_without_ai_call
    (cfg : ProcessorConfig) (env : ImproveEnv) (repos : String → Option RepoRec)
    (job : Job) (store : CovStore) (fid : String) (cf : CoverageFile) (repo : RepoRec)
    (hp : job.status = .pending) (hfid : job.fileId = some fid)
    (hcf : store fid = some cf) (hwk : wellKeyed store)
    (hth : cf.coveragePercentage ≥ cfg.coverageThreshold)
    (hrepo : repos job.repositoryId = some repo)
    (hclone : env.cloneResult = .ok ()) (hinst : env.installResult = .ok ())
    (hbr : env.branchResult = .ok ()) (hsrc : env.sourceExists = true) :
    (executeImprovementJob cfg env repos job store).1 =
      .ok { job with
            status := .failed, progress := 20,
            error := some "No test file was generated" } ∧
    (executeImprovementJob cfg env repos job store).2.aiCalls = 0 ∧
    ∀ cf', (executeImprovementJob cfg env repos job store).2.covStore fid = some cf' →
      cf'.status = .pending := by
  have hbind : job.fileId.bind store = some cf := by rw [hfid]; exact hcf
  have hsetup : improveSetup env repos
      { job := job, covStore := store, aiCalls := 0, workspaceCreated := false,
        cleaned := false, committedFiles := none, lastReport := none } =
      (.ok (repo, cf, findTestFile env.existsAt (getTempDir job.id) cf.path),
       { job := { job with status := .running, progress := 20 }, covStore := store,
         aiCalls := 0, workspaceCreated := true, cleaned := false,
         committedFiles := none, lastReport := none }) := by
    simp [improveSetup, run_bind, run_jobDo, run_pGet, run_pModify, run_pLift, run_pThrow,
      run_pure, Job.start_of_pending job hp, hrepo, hbind, hclone, hinst, hbr, hsrc,
      Job.updateProgress_of_running]
  have hloop := runAttempts_at_threshold cfg env
    (findTestFile env.existsAt (getTempDir job.id) cf.path) cfg.maxRetries 0
    { cf := cf, currentCoverage := cf.coveragePercentage,
      currentUncoveredLines := cf.uncoveredLines, generatedTestPath := none }
    { job := { job with status := .running, progress := 20 }, covStore := store,
      aiCalls := 0, workspaceCreated := true, cleaned := false,
      committedFiles := none, lastReport := none }
    (by simp only [not_lt]; exact hth)
  have hfin := improveFinish_noGen env
    { cf := cf, currentCoverage := cf.coveragePercentage,
      currentUncoveredLines := cf.uncoveredLines, generatedTestPath := none }
    { job := { job with status := .running, progress := 20 }, covStore := store,
      aiCalls := 0, workspaceCreated := true, cleaned := false,
      committedFiles := none, lastReport := none } rfl
  have htry : tryImprove cfg env repos
      { job := job, covStore := store, aiCalls := 0, workspaceCreated := false,
        cleaned := false, committedFiles := none, lastReport := none } =
      (.error "No test file was generated",
       { job := { job with status := .running, progress := 20 }, covStore := store,
         aiCalls := 0, workspaceCreated := true, cleaned := false,
         committedFiles := none, lastReport := none }) := by
    unfold tryImprove
    rw [run_bind, hsetup]
    dsimp only
    rw [run_bind, hloop]
    dsimp only
    exact hfin
  have hfl : ({ job with status := JobStatusV.running, progress := 20 } : Job).fail
      "No test file was generated" =
      .ok { job with
            status := .failed, progress := 20,
            error := some "No test file was generated" } :=
    Job.fail_of_running _ _ rfl
  have hcatch : catchImprove "No test file was generated"
      { job := { job with status := .running, progress := 20 }, covStore := store,
        aiCalls := 0, workspaceCreated := true, cleaned := false,
        committedFiles := none, lastReport := none } =
      (.ok { job with
             status := .failed, progress := 20,
             error := some "No test file was generated" },
       { job := { job with
                  status := .failed, progress := 20,
                  error := some "No test file was generated" },
         covStore := store.save cf.resetToPending, aiCalls := 0,
         workspaceCreated := true, cleaned := false, committedFiles := none,
         lastReport := none }) := by
    simp only [catchImprove, run_bind, run_jobDo, run_pGet, run_pure, run_saveCoverageFile,
      hfl]
    simp [run_bind, run_pGet, run_pure, run_saveCoverageFile, hfid, hcf]
  have hw : executeImprovementJob cfg env repos job store =
      (.ok { job with
             status := .failed, progress := 20,
             error := some "No test file was generated" },
       { job := { job with
                  status := .failed, progress := 20,
                  error := some "No test file was generated" },
         covStore := store.save cf.resetToPending, aiCalls := 0,
         workspaceCreated := true, cleaned := true, committedFiles := none,
         lastReport := none }) := by
    rw [executeImprovementJob_run]
    simp only [htry, hcatch]
  rw [hw]
  refine ⟨rfl, rfl, ?_⟩
  intro cf' hcf'
  have hid : cf.id = fid := hwk fid cf hcf
  have hsave : CovStore.save store cf.resetToPending fid = some cf.resetToPending := by
    simp [CovStore.save, CoverageFile.resetToPending, hid]
  have hcf2 : CovStore.save store cf.resetToPending fid = some cf' := hcf'
  rw [hsave] at hcf2
  injection hcf2 with h2
  rw [← h2]
  rfl

/-- **C10 witness**: the sample job with the target file already at 95%
(threshold 80%): the run makes no AI call, fails with
`No test file was generated`, and resets the file. -/
theorem c10_at_threshold_fails_without_ai_call_witness :
    sampleJob.status = .pending ∧
    ({ sampleCf with coveragePercentage := 9500 } : CoverageFile).coveragePercentage ≥
      defaultConfig.coverageThreshold ∧
    (executeImprovementJob defaultConfig sampleEnv sampleRepos sampleJob
        (fun i => if i = "f1" then some { sampleCf with coveragePercentage := 9500 }
         else none)).1 =
      .ok { sampleJob with
            status := .failed, progress := 20,
            error := some "No test file was generated" } ∧
    (executeImprovementJob defaultConfig sampleEnv sampleRepos sampleJob
        (fun i => if i = "f1" then some { sampleCf with coveragePercentage := 9500 }
         else none)).2.aiCalls = 0 := by
  have hwk : wellKeyed (fun i =>
      if i = "f1" then some { sampleCf with coveragePercentage := 9500 } else none) := by
    intro i cf h
    dsimp only at h
    split at h
    next heq =>
      injection h with h2
      rw [← h2, heq]
      rfl
    next => exact absurd h (by simp)
  have happ := c10_at_threshold_fails_without_ai_call defaultConfig sampleEnv sampleRepos
    sampleJob
    (fun i => if i = "f1" then some { sampleCf with coveragePercentage := 9500 } else none)
    "f1" { sampleCf with coveragePercentage := 9500 } sampleRepo rfl rfl rfl hwk
    (by decide) rfl rfl rfl rfl rfl
  exact ⟨rfl, by decide, happ.1, happ.2.1⟩

/-! ## C4: terminal-state immutability of the Job status machine -/

/-- C4: the Job status transition graph is exactly
`pending → running`, `running → completed`, `running → failed` and
`pending → failed`; from a `completed` or `failed` job every call to
`transitionTo` returns an error (terminal-state immutability), and in
particular `start()` on a completed job signals the invalid-transition
error from `completed` to `running`. -/
theorem c4_terminal_states_are_immutable :
    (∀ a b : JobStatusV, canTransitionTo a b = true ↔
        ((a = JobStatusV.pending ∧ b = JobStatusV.running) ∨
         (a = JobStatusV.running ∧ b = JobStatusV.completed) ∨
         (a = JobStatusV.running ∧ b = JobStatusV.failed) ∨
         (a = JobStatusV.pending ∧ b = JobStatusV.failed))) ∧
    (∀ (j : Job) (b : JobStatusV),
        j.status = JobStatusV.completed ∨ j.status = JobStatusV.failed →
        ∃ e, j.transitionTo b = Except.error e) ∧
    (∀ j : Job, j.status = JobStatusV.completed →
        j.start = Except.error "Invalid status transition from completed to running") := by
  refine ⟨by intro a b; cases a <;> cases b <;> decide, ?_, ?_⟩
  · intro j b h
    have hc : canTransitionTo j.status b = false := by
      rcases h with h | h <;> rw [h] <;> cases b <;> rfl
    exact ⟨"Invalid status transition from " ++ j.status.value ++ " to " ++ b.value,
      by simp [Job.transitionTo, hc]⟩
  · intro j h
    unfold Job.start Job.transitionTo
    rw [h]
    rfl

/-- Witness for C4: a concrete completed job rejects `start()` with the
exact invalid-transition error message. -/
theorem c4_terminal_states_are_immutable_witness :
    Job.start { sampleJob with status := JobStatusV.completed } =
      Except.error "Invalid status transition from completed to running" :=
  c4_terminal_states_are_immutable.2.2 { sampleJob with status := JobStatusV.completed } rfl

/-! ## C7: aggregate coverage is the ratio of sums, not a mean -/

/-- C7: the recomputed aggregate coverage equals the rounded ratio of the
sum of covered lines to the sum of total lines (`roundedAggregate`), never
an average of per-file percentages: the rounded ratio is within half a line
of the exact ratio (`|2·t·agg − 20000·c| ≤ t` in centi-percent), and on the
files (8,10) and (0,5) the aggregate is 53.33% (centi 5333), not the 40%
arithmetic mean of 80% and 0%. -/
theorem c7_aggregate_is_ratio_of_sums :
    (∀ files : List FileCov, 0 < totalLinesOf files →
        recalcTotalCoverage files =
          roundedAggregate (totalCoveredLines files) (totalLinesOf files)) ∧
    (∀ c t : ℕ, 0 < t →
        |2 * (t : ℤ) * roundedAggregate c t - 20000 * (c : ℤ)| ≤ (t : ℤ)) ∧
    (recalcTotalCoverage
        [{ path := "a.ts", linesCovered := 8, linesTotal := 10,
           percentage := 8000, uncoveredLines := [] },
         { path := "b.ts", linesCovered := 0, linesTotal := 5,
           percentage := 0, uncoveredLines := [] }] = 5333 ∧
      (5333 : ℤ) ≠ (8000 + 0) / 2) := by
  refine ⟨?_, ?_, by decide, by decide⟩
  · intro files h
    simp [recalcTotalCoverage, h]
  · intro c t ht
    have hd : 0 < 2 * t := by omega
    have h1 : 2 * t * ((20000 * c + t) / (2 * t)) + (20000 * c + t) % (2 * t)
        = 20000 * c + t := Nat.div_add_mod _ _
    have h2 : (20000 * c + t) % (2 * t) < 2 * t := Nat.mod_lt _ hd
    unfold roundedAggregate
    set q : ℕ := (20000 * c + t) / (2 * t) with hq
    set r : ℕ := (20000 * c + t) % (2 * t) with hr
    have h1i : 2 * (t : ℤ) * (q : ℤ) + (r : ℤ) = 20000 * (c : ℤ) + (t : ℤ) := by
      exact_mod_cast h1
    have h2i : (r : ℤ) < 2 * (t : ℤ) := by exact_mod_cast h2
    have hr0 : (0 : ℤ) ≤ (r : ℤ) := Int.natCast_nonneg r
    have key : 2 * (t : ℤ) * (q : ℤ) - 20000 * (c : ℤ) = (t : ℤ) - (r : ℤ) := by linarith
    rw [abs_le, key]
    constructor <;> linarith

/-- Witness for C7: the first two conjuncts instantiated at the concrete
two-file report, with both hypotheses discharged by evaluation. -/
theorem c7_aggregate_is_ratio_of_sums_witness :
    recalcTotalCoverage
        [{ path := "a.ts", linesCovered := 8, linesTotal := 10,
           percentage := 8000, uncoveredLines := [] },
         { path := "b.ts", linesCovered := 0, linesTotal := 5,
           percentage := 0, uncoveredLines := [] }] =
      roundedAggregate 8 15 ∧
    |2 * (15 : ℤ) * roundedAggregate 8 15 - 20000 * (8 : ℤ)| ≤ (15 : ℤ) :=
  ⟨c7_aggregate_is_ratio_of_sums.1 _ (by decide),
   c7_aggregate_is_ratio_of_sums.2.1 8 15 (by decide)⟩

/-! ## C6: scheduler order — head-of-queue selection -/

instance : IsTotal Job (fun a b => a.createdAt ≤ b.createdAt) :=
  ⟨fun a b => Nat.le_total a.createdAt b.createdAt⟩

instance : IsTrans Job (fun a b => a.createdAt ≤ b.createdAt) :=
  ⟨fun _ _ _ => Nat.le_trans⟩

/-- The head of `findPending jobs 1` is a pending job of the table with
minimal creation time among all pending jobs. -/
lemma findPending_head_spec {jobs : List Job} {j : Job} {rest : List Job}
    (h : findPending jobs 1 = j :: rest) :
    j ∈ jobs ∧ j.status = JobStatusV.pending ∧
      ∀ k ∈ jobs, k.status = JobStatusV.pending → j.createdAt ≤ k.createdAt := by
  unfold findPending at h
  have hperm := List.perm_insertionSort (fun a b : Job => a.createdAt ≤ b.createdAt)
    (jobs.filter (fun j => j.status = JobStatusV.pending))
  have hsort := List.sorted_insertionSort (fun a b : Job => a.createdAt ≤ b.createdAt)
    (jobs.filter (fun j => j.status = JobStatusV.pending))
  cases hc : List.insertionSort (fun a b : Job => a.createdAt ≤ b.createdAt)
      (jobs.filter (fun j => j.status = JobStatusV.pending)) with
  | nil => rw [hc] at h; simp at h
  | cons a t =>
    rw [hc] at h
    simp only [List.take_succ_cons, List.take_zero] at h
    obtain ⟨haj, -⟩ := List.cons.inj h
    subst haj
    rw [hc] at hperm hsort
    have hmem : a ∈ jobs.filter (fun j => j.status = JobStatusV.pending) :=
      hperm.subset (List.mem_cons_self a t)
    obtain ⟨hj1, hj2⟩ := List.mem_filter.1 hmem
    refine ⟨hj1, by simpa using hj2, ?_⟩
    intro k hk hkp
    have hkf : k ∈ jobs.filter (fun j => j.status = JobStatusV.pending) :=
      List.mem_filter.2 ⟨hk, by simpa using hkp⟩
    have hkl : k ∈ a :: t := hperm.mem_iff.2 hkf
    rcases List.mem_cons.1 hkl with hkj | hkt
    · rw [hkj]
    · exact (List.sorted_cons.1 hsort).1 k hkt

/-- A `selectNextJob` hit is the head of `findPending jobs 1` and passes
both concurrency guards. -/
lemma selectNextJob_some {jobs : List Job} {j : Job} (h : selectNextJob jobs = some j) :
    (∃ rest, findPending jobs 1 = j :: rest) ∧
    ¬(j.type = JobType.analysis ∧ (findRunning jobs j.type).length > 0) ∧
    ¬(j.type = JobType.improvement ∧
      ((findRunning jobs j.type).filter
        (fun k => k.repositoryId = j.repositoryId)).length > 0) := by
  unfold selectNextJob at h
  cases hfp : findPending jobs 1 with
  | nil => rw [hfp] at h; simp at h
  | cons j0 rest =>
    rw [hfp] at h
    simp only [] at h
    split_ifs at h with h1 h2
    have hj : j0 = j := Option.some.inj h
    subst hj
    exact ⟨⟨rest, rfl⟩, h1, h2⟩

/-- When the head of the pending queue is blocked by the relevant
concurrency guard, the tick selects no job at all. -/
lemma selectNextJob_blocked_head {jobs : List Job} {j : Job} {rest : List Job}
    (hfp : findPending jobs 1 = j :: rest)
    (hblock : (j.type = JobType.analysis ∧ 0 < runningAnalysisCount jobs) ∨
      (j.type = JobType.improvement ∧ 0 < runningImprovementCount jobs j.repositoryId)) :
    selectNextJob jobs = none := by
  simp only [selectNextJob, hfp]
  rcases hblock with ⟨hty, hrun⟩ | ⟨hty, hrun⟩
  · have hrun' : (findRunning jobs JobType.analysis).length > 0 := hrun
    rw [hty]
    rw [if_pos ⟨rfl, hrun'⟩]
  · have hrun' : ((findRunning jobs JobType.improvement).filter
        (fun k => k.repositoryId = j.repositoryId)).length > 0 := hrun
    rw [hty]
    rw [if_neg (by simp), if_pos ⟨rfl, hrun'⟩]

/-- A running analysis job, created first. -/
def cxRunningA : Job :=
  { id := "jr", type := .analysis, repositoryId := "rA", status := .running,
    progress := 50, error := none, createdAt := 0,
    repositoryUrl := some "https://github.com/u/a", branch := none, filesFound := 0,
    filesBelowThreshold := 0, fileId := none, filePath := none, aiProvider := none,
    prUrl := none }

/-- An older pending analysis job, blocked by the running analysis job. -/
def cxPendingA : Job :=
  { id := "jp", type := .analysis, repositoryId := "rB", status := .pending,
    progress := 0, error := none, createdAt := 1,
    repositoryUrl := some "https://github.com/u/b", branch := none, filesFound := 0,
    filesBelowThreshold := 0, fileId := none, filePath := none, aiProvider := none,
    prUrl := none }

/-- A younger pending improvement job for an idle repository. -/
def cxPendingI : Job :=
  { id := "ji", type := .improvement, repositoryId := "rC", status := .pending,
    progress := 0, error := none, createdAt := 2, repositoryUrl := none, branch := none,
    filesFound := 0, filesBelowThreshold := 0, fileId := some "f9",
    filePath := some "c.ts", aiProvider := some .claude, prUrl := none }

/-- C6 counterexample: with a running analysis job, an older blocked pending
analysis job and a younger pending improvement job whose repository is idle
(zero running improvement jobs), the claim says the younger eligible job
runs next; `selectNextJob` (which only ever examines the single oldest
pending job, `findPending(1)`) instead selects nothing. -/
theorem c6_counterexample_blocked_head_starves_younger_eligible_job :
    selectNextJob [cxRunningA, cxPendingA, cxPendingI] = none ∧
    cxPendingI.status = JobStatusV.pending ∧
    cxPendingI.type = JobType.improvement ∧
    runningImprovementCount [cxRunningA, cxPendingA, cxPendingI] cxPendingI.repositoryId = 0 ∧
    cxPendingA.createdAt < cxPendingI.createdAt :=
  ⟨rfl, rfl, rfl, rfl, by decide⟩

/-- C6 (corrected): the scheduler is FIFO only up to the head of the pending
queue: any job it selects is a pending job of minimal creation time among
all pending jobs, and whenever that single oldest pending job is blocked
(running analysis job system-wide for an analysis head, running improvement
job on the same repository for an improvement head) the tick selects
nothing — a younger eligible pending job is not considered. -/
theorem c6_scheduler_runs_only_the_oldest_pending_job :
    (∀ (jobs : List Job) (j : Job), selectNextJob jobs = some j →
        j ∈ jobs ∧ j.status = JobStatusV.pending ∧
          ∀ k ∈ jobs, k.status = JobStatusV.pending → j.createdAt ≤ k.createdAt) ∧
    (∀ (jobs : List Job) (j : Job) (rest : List Job), findPending jobs 1 = j :: rest →
        ((j.type = JobType.analysis ∧ 0 < runningAnalysisCount jobs) ∨
         (j.type = JobType.improvement ∧
           0 < runningImprovementCount jobs j.repositoryId)) →
        selectNextJob jobs = none) := by
  constructor
  · intro jobs j h
    obtain ⟨⟨rest, hfp⟩, -, -⟩ := selectNextJob_some h
    exact findPending_head_spec hfp
  · intro jobs j rest hfp hblock
    exact selectNextJob_blocked_head hfp hblock

/-- Witness for C6: the first part applied to a two-job table (the selected
job is the oldest pending one), the second to the three-job counterexample
table (blocked head, no selection). -/
theorem c6_scheduler_runs_only_the_oldest_pending_job_witness :
    (cxPendingI ∈ [cxRunningA, cxPendingI] ∧ cxPendingI.status = JobStatusV.pending ∧
      ∀ k ∈ [cxRunningA, cxPendingI], k.status = JobStatusV.pending →
        cxPendingI.createdAt ≤ k.createdAt) ∧
    selectNextJob [cxRunningA, cxPendingA, cxPendingI] = none :=
  ⟨c6_scheduler_runs_only_the_oldest_pending_job.1 [cxRunningA, cxPendingI] cxPendingI rfl,
   c6_scheduler_runs_only_the_oldest_pending_job.2 [cxRunningA, cxPendingA, cxPendingI]
     cxPendingA [] rfl (Or.inl ⟨rfl, by decide⟩)⟩

/-! ## C3: concurrency eligibility and the running-count invariant -/

/-- `markStarted` with an id absent from the table is the identity. -/
lemma markStarted_not_mem (jobs : List Job) (id : String)
    (h : id ∉ jobs.map Job.id) : markStarted jobs id = jobs := by
  induction jobs with
  | nil => rfl
  | cons x xs ih =>
    simp only [List.map_cons, List.mem_cons, not_or] at h
    unfold markStarted at ih ⊢
    simp only [List.map_cons]
    rw [if_neg (fun hx => h.1 hx.symm), ih h.2]

/-- Effect of `markStarted` on any count over the table: with unique job
ids, only the marked job's entry changes, and if it was not counted before
the count grows by its new entry's contribution. -/
lemma countP_markStarted (jobs : List Job) (j : Job) (p : Job → Bool)
    (hmem : j ∈ jobs) (hnodup : (jobs.map Job.id).Nodup) (hpj : p j = false) :
    (markStarted jobs j.id).countP p =
      jobs.countP p +
        (if p { j with status := JobStatusV.running, progress := 0 } then 1 else 0) := by
  induction jobs with
  | nil => cases hmem
  | cons x xs ih =>
    simp only [List.map_cons, List.nodup_cons] at hnodup
    rcases List.mem_cons.1 hmem with hjx | hjxs
    · subst hjx
      have hxs := markStarted_not_mem xs j.id hnodup.1
      unfold markStarted at hxs ⊢
      cases hpr : p { j with status := JobStatusV.running, progress := 0 } <;>
        simp [List.map_cons, hxs, List.countP_cons, hpj, hpr]
    · have hxid : ¬ x.id = j.id := by
        intro he
        apply hnodup.1
        rw [he]
        exact List.mem_map.2 ⟨j, hjxs, rfl⟩
      unfold markStarted at ih ⊢
      rw [List.map_cons, if_neg hxid]
      simp only [List.countP_cons]
      rw [ih hjxs hnodup.2]
      omega

/-- `runningAnalysisCount` as a `countP` over the table. -/
lemma runningAnalysisCount_eq_countP (jobs : List Job) :
    runningAnalysisCount jobs =
      jobs.countP (fun k => k.status = JobStatusV.running && k.type = JobType.analysis) := by
  unfold runningAnalysisCount findRunning
  rw [← List.countP_eq_length_filter]

/-- `runningImprovementCount` as a `countP` over the table. -/
lemma runningImprovementCount_eq_countP (jobs : List Job) (r : String) :
    runningImprovementCount jobs r =
      jobs.countP (fun k => k.repositoryId = r &&
        (k.status = JobStatusV.running && k.type = JobType.improvement)) := by
  unfold runningImprovementCount findRunning
  rw [List.filter_filter, ← List.countP_eq_length_filter]

/-- The spec's concurrency invariant: at most one running analysis job
system-wide and at most one running improvement job per repository. -/
def schedInv (jobs : List Job) : Prop :=
  runningAnalysisCount jobs ≤ 1 ∧ ∀ r : String, runningImprovementCount jobs r ≤ 1

/-- A fully successful analysis collaborator environment: a checkout with
three source files under `src/`, of which the parsed report covers two. -/
def sampleAEnv : AnalysisEnv :=
  { cloneResult := .ok (), projectInfo := some (none, true), installResult := .ok (),
    runTestsResult := .ok (),
    parsedReport := { files := [{ path := "src/a.ts", linesCovered := 8, linesTotal := 10,
                                  percentage := 8000, uncoveredLines := [3] },
                                { path := "src/b.ts", linesCovered := 0, linesTotal := 5,
                                  percentage := 0, uncoveredLines := [1, 2] }],
                      totalCoverage := 4000 },
    checkout := .cons (.dir "src" (.cons (.file "a.ts") (.cons (.file "b.ts")
      (.cons (.file "c.ts") .nil)))) .nil }

/-- C3: concurrency eligibility: when the pending head is an analysis job
while another analysis job is running, or an improvement job while another
improvement job runs on the same repository, `processNextJob` returns
nothing (`idle`) and the tick leaves the job table unchanged; moreover one
scheduling tick preserves the invariant that at most one analysis job runs
system-wide and at most one improvement job runs per repository. -/
theorem c3_concurrency_eligibility_guards :
    (∀ (cfg : ProcessorConfig) (jobs : List Job) (aenv : AnalysisEnv) (ienv : ImproveEnv)
        (repos : String → Option RepoRec) (cov : CovStore) (j : Job) (rest : List Job),
        findPending jobs 1 = j :: rest →
        ((j.type = JobType.analysis ∧ 0 < runningAnalysisCount jobs) ∨
         (j.type = JobType.improvement ∧ 0 < runningImprovementCount jobs j.repositoryId)) →
        processNextJob cfg jobs aenv ienv repos cov = ProcOutcome.idle ∧
          schedulerStep jobs = jobs) ∧
    (∀ jobs : List Job, (jobs.map Job.id).Nodup → schedInv jobs →
        schedInv (schedulerStep jobs)) := by
  constructor
  · intro cfg jobs aenv ienv repos cov j rest hfp hblock
    have hnone := selectNextJob_blocked_head hfp hblock
    constructor
    · unfold processNextJob
      rw [hnone]
    · unfold schedulerStep
      rw [hnone]
  · intro jobs hnodup hinv
    unfold schedulerStep
    cases hsel : selectNextJob jobs with
    | none => exact hinv
    | some j =>
      obtain ⟨⟨rest, hfp⟩, hg1, hg2⟩ := selectNextJob_some hsel
      obtain ⟨hmem, hpend, -⟩ := findPending_head_spec hfp
      show schedInv (markStarted jobs j.id)
      constructor
      · rw [runningAnalysisCount_eq_countP,
          countP_markStarted jobs j _ hmem hnodup (by simp [hpend])]
        cases hty : j.type with
        | analysis =>
          have h0 : (findRunning jobs j.type).length = 0 := by
            by_contra hne
            exact hg1 ⟨hty, Nat.pos_of_ne_zero hne⟩
          rw [hty] at h0
          have h0' : jobs.countP
              (fun k => k.status = JobStatusV.running && k.type = JobType.analysis) = 0 := by
            rw [← runningAnalysisCount_eq_countP]
            exact h0
          rw [h0']
          split <;> omega
        | improvement =>
          have hb := hinv.1
          rw [runningAnalysisCount_eq_countP] at hb
          simpa using hb
      · intro r
        rw [runningImprovementCount_eq_countP,
          countP_markStarted jobs j _ hmem hnodup (by simp [hpend])]
        cases hty : j.type with
        | analysis =>
          have hb := hinv.2 r
          rw [runningImprovementCount_eq_countP] at hb
          simpa using hb
        | improvement =>
          by_cases hr : j.repositoryId = r
          · have h0 : ((findRunning jobs j.type).filter
                (fun k => k.repositoryId = j.repositoryId)).length = 0 := by
              by_contra hne
              exact hg2 ⟨hty, Nat.pos_of_ne_zero hne⟩
            rw [hty] at h0
            have h0' : jobs.countP (fun k => k.repositoryId = r &&
                (k.status = JobStatusV.running && k.type = JobType.improvement)) = 0 := by
              rw [← runningImprovementCount_eq_countP, ← hr]
              exact h0
            rw [h0']
            split <;> omega
          · have hb := hinv.2 r
            rw [runningImprovementCount_eq_countP] at hb
            simpa [hr] using hb

/-- Witness for C3: the blocked three-job table yields an idle tick with an
unchanged table, and a tick on that table preserves the invariant. -/
theorem c3_concurrency_eligibility_guards_witness :
    (processNextJob defaultConfig [cxRunningA, cxPendingA, cxPendingI] sampleAEnv sampleEnv
        sampleRepos sampleStore = ProcOutcome.idle ∧
      schedulerStep [cxRunningA, cxPendingA, cxPendingI] =
        [cxRunningA, cxPendingA, cxPendingI]) ∧
    schedInv (schedulerStep [cxRunningA, cxPendingA, cxPendingI]) :=
  ⟨c3_concurrency_eligibility_guards.1 defaultConfig _ sampleAEnv sampleEnv sampleRepos
      sampleStore cxPendingA [] rfl (Or.inl ⟨rfl, by decide⟩),
   c3_concurrency_eligibility_guards.2 [cxRunningA, cxPendingA, cxPendingI] (by decide)
     ⟨by decide, fun r => Nat.zero_le 1⟩⟩

/-! ## C8: missing files are recorded at 0% with [1] and the final list is sorted -/

instance : IsTotal FileCov (fun a b => a.percentage ≤ b.percentage) :=
  ⟨fun a b => Int.le_total a.percentage b.percentage⟩

instance : IsTrans FileCov (fun a b => a.percentage ≤ b.percentage) :=
  ⟨fun _ _ _ => Int.le_trans⟩

/-- C8: every enumerated TypeScript file absent from the parsed coverage
report appears in the final report's file list with coverage percentage 0
and uncovered-lines `[1]`, and the final file list is sorted ascending by
coverage percentage. -/
theorem c8_missing_files_recorded_and_sorted :
    (∀ (allTsFiles : List String) (parsed : CoverageReport) (p : String),
        p ∈ allTsFiles → p ∉ parsed.files.map FileCov.path →
        ∃ fc ∈ (buildFinalReport allTsFiles parsed).files,
          fc.path = p ∧ fc.percentage = 0 ∧ fc.uncoveredLines = [1]) ∧
    (∀ (allTsFiles : List String) (parsed : CoverageReport),
        (buildFinalReport allTsFiles parsed).files.Pairwise
          (fun a b => a.percentage ≤ b.percentage)) := by
  constructor
  · intro allTs parsed p hp hnp
    have hmem : (FileCov.mk p 0 1 0 [1]) ∈ addMissingFiles allTs parsed.files := by
      unfold addMissingFiles
      refine List.mem_append_right _ ?_
      refine List.mem_map.2 ⟨p, ?_, rfl⟩
      refine List.mem_filter.2 ⟨hp, ?_⟩
      simpa using hnp
    refine ⟨FileCov.mk p 0 1 0 [1], ?_, rfl, rfl, rfl⟩
    unfold buildFinalReport sortByPercentage
    exact (List.perm_insertionSort _ _).mem_iff.2 hmem
  · intro allTs parsed
    unfold buildFinalReport sortByPercentage
    exact List.sorted_insertionSort _ _

/-- Witness for C8 on the three-file checkout whose parsed report covers
two files: the third gets a synthetic `0%, [1]` row and the result is
sorted. -/
theorem c8_missing_files_recorded_and_sorted_witness :
    (∃ fc ∈ (buildFinalReport ["src/a.ts", "src/b.ts", "src/c.ts"]
        sampleAEnv.parsedReport).files,
      fc.path = "src/c.ts" ∧ fc.percentage = 0 ∧ fc.uncoveredLines = [1]) ∧
    (buildFinalReport ["src/a.ts", "src/b.ts", "src/c.ts"]
        sampleAEnv.parsedReport).files.Pairwise (fun a b => a.percentage ≤ b.percentage) :=
  ⟨c8_missing_files_recorded_and_sorted.1 _ _ "src/c.ts" (by decide) (by decide),
   c8_missing_files_recorded_and_sorted.2 _ _⟩

/-! ## C9: the error-propagation boundary -/

/-- The tail of `tryAnalysis` after the coverage rows are stored (a
factoring of the same source lines, proven equal to `tryAnalysis` below). -/
def finishAnalysis (repository : RepoRec) (nFiles fbt : ℕ) : PipeM ASt Job := do
  saveRepo { repository with analyzed := true }
  jobDoA (fun j => j.completeAnalysis nFiles fbt)
  let s' ← pGet
  pure s'.job

/-- The part of `tryAnalysis` following the repository resolution (a
factoring of the same source lines, proven equal to `tryAnalysis` below). -/
def tryAnalysisTail (cfg : ProcessorConfig) (env : AnalysisEnv) (repository : RepoRec) :
    PipeM ASt Job := do
  pModify fun st => { st with workspaceCreated := true }
  pLift env.cloneResult
  jobDoA (Job.updateProgress · 20)
  let relativeProjectDir : Option String :=
    match env.projectInfo with
    | some pi => pi.1
    | none => none
  let coverageReport ← match env.projectInfo with
    | some _ => do
      pLift env.installResult
      jobDoA (Job.updateProgress · 40)
      pLift env.runTestsResult
      jobDoA (Job.updateProgress · 60)
      pure env.parsedReport
    | none => pure ({ files := [], totalCoverage := 0 } : CoverageReport)
  let allTsFiles := findAllTypeScriptFiles env.checkout
  let report := buildFinalReport allTsFiles coverageReport
  jobDoA (Job.updateProgress · 80)
  pModify fun st => { st with covDeleted := some repository.id, savedFiles := [] }
  let filesBelowThreshold ← saveReportFiles cfg repository.id relativeProjectDir report.files
  finishAnalysis repository report.files.length filesBelowThreshold

/-- `tryAnalysis` is the repository resolution followed by the tail. -/
lemma tryAnalysis_eq (cfg : ProcessorConfig) (env : AnalysisEnv) :
    tryAnalysis cfg env = (do
      jobDoA Job.start
      let s ← pGet
      let job := s.job
      let repository ← match s.repoStore job.repositoryId with
        | some r => pure r
        | none =>
          match job.repositoryUrl with
          | some url => do
            let ow := parseGitHubUrl url
            let r : RepoRec := { id := url, url := url, owner := ow.1, name := ow.2,
                                 branch := job.branch.getD "main",
                                 defaultBranch := job.branch.getD "main", analyzed := false }
            saveRepo r
            pure r
          | none => pThrow "Repository not found"
      tryAnalysisTail cfg env repository) := rfl

/-- `saveReportFiles` never touches the job entity. -/
lemma saveReportFiles_job (cfg : ProcessorConfig) (repoId : String) (pd : Option String)
    (files : List FileCov) (s : ASt) :
    (saveReportFiles cfg repoId pd files s).2.job = s.job := by
  induction files generalizing s with
  | nil => rfl
  | cons f rest ih =>
    cases hc : CoveragePercentage.create f.percentage with
    | error e =>
      have hstep : saveReportFiles cfg repoId pd (f :: rest) s = (.error e, s) := by
        simp [saveReportFiles, run_bind, run_pLift, run_pModify, run_pure, hc]
      rw [hstep]
    | ok pct =>
      rcases hrec : saveReportFiles cfg repoId pd rest (ASt.mk s.job s.repoStore s.covDeleted
          (s.savedFiles ++ [CoverageFile.create repoId f.path pct f.uncoveredLines pd])
          s.workspaceCreated s.cleaned) with ⟨rr, s2⟩
      have hjob2 : s2.job = s.job := by
        have h := ih (ASt.mk s.job s.repoStore s.covDeleted
          (s.savedFiles ++ [CoverageFile.create repoId f.path pct f.uncoveredLines pd])
          s.workspaceCreated s.cleaned)
        rw [hrec] at h
        exact h
      cases rr with
      | ok n =>
        have hstep : saveReportFiles cfg repoId pd (f :: rest) s =
            (.ok (if f.percentage < cfg.coverageThreshold then n + 1 else n), s2) := by
          simp [saveReportFiles, run_bind, run_pLift, run_pModify, run_pure, hc, hrec]
        rw [hstep]
        exact hjob2
      | error e =>
        have hstep : saveReportFiles cfg repoId pd (f :: rest) s = (.error e, s2) := by
          simp [saveReportFiles, run_bind, run_pLift, run_pModify, run_pure, hc, hrec]
        rw [hstep]
        exact hjob2

/-- `completeAnalysis` on a running analysis job succeeds, completing it. -/
lemma Job.completeAnalysis_of_running (j : Job) (a b : ℕ) (hr : j.status = .running)
    (ht : j.type = .analysis) :
    j.completeAnalysis a b = .ok { j with status := .completed, progress := 100,
                                          filesFound := a, filesBelowThreshold := b } := by
  simp [Job.completeAnalysis, Job.transitionTo, ht, hr, canTransitionTo,
    bind, Except.bind, pure, Except.pure]

/-- `completeAnalysis` on an improvement job throws the type-guard error. -/
lemma Job.completeAnalysis_of_improvement (j : Job) (a b : ℕ)
    (ht : j.type = .improvement) :
    j.completeAnalysis a b = .error "completeAnalysis can only be called on analysis jobs" := by
  simp [Job.completeAnalysis, ht]

/-- The analysis `catch` handler on a running job: fail and return the
failed job. -/
lemma catchAnalysis_spec (msg : String) (s : ASt) (hr : s.job.status = .running) :
    catchAnalysis msg s =
      (.ok { s.job with status := .failed, error := some msg },
       { s with job := { s.job with status := .failed, error := some msg } }) := by
  have hfail := Job.fail_of_running s.job msg hr
  simp [catchAnalysis, run_bind, run_jobDoA, run_pGet, run_pure, hfail]

/-- `finishAnalysis` from a running job: an error exit leaves the job
running, a normal return yields the completed in-state job. -/
lemma finishAnalysis_spec (repository : RepoRec) (nF n : ℕ) (s : ASt)
    (hrun : s.job.status = .running) :
    (∀ e, (finishAnalysis repository nF n s).1 = .error e →
        (finishAnalysis repository nF n s).2.job.status = .running) ∧
    (∀ j, (finishAnalysis repository nF n s).1 = .ok j →
        j.status = .completed ∧ (finishAnalysis repository nF n s).2.job = j) := by
  cases hca : s.job.completeAnalysis nF n with
  | error e =>
    have hbody : finishAnalysis repository nF n s =
        (.error e, ASt.mk s.job
          (fun i => if i = repository.id
            then some (RepoRec.mk repository.id repository.url repository.owner
              repository.name repository.branch repository.defaultBranch true)
            else s.repoStore i)
          s.covDeleted s.savedFiles s.workspaceCreated s.cleaned) := by
      simp [finishAnalysis, run_bind, run_saveRepo, run_jobDoA, run_pGet, run_pure, hca]
    rw [hbody]
    exact ⟨fun _ _ => hrun, fun j hj => absurd hj (by simp)⟩
  | ok j' =>
    obtain ⟨hc, -⟩ := Job.completeAnalysis_ok s.job j' nF n hca
    have hbody : finishAnalysis repository nF n s =
        (.ok j', ASt.mk j'
          (fun i => if i = repository.id
            then some (RepoRec.mk repository.id repository.url repository.owner
              repository.name repository.branch repository.defaultBranch true)
            else s.repoStore i)
          s.covDeleted s.savedFiles s.workspaceCreated s.cleaned) := by
      simp [finishAnalysis, run_bind, run_saveRepo, run_jobDoA, run_pGet, run_pure, hca]
    rw [hbody]
    refine ⟨fun e he => absurd he (by simp), fun j hj => ?_⟩
    injection hj with hj
    subst hj
    exact ⟨hc, rfl⟩

/-- `tryAnalysisTail` from a running job: an error exit leaves the job
running, a normal return yields a completed job equal to the final in-state
job. -/
lemma tryAnalysisTail_spec (cfg : ProcessorConfig) (env : AnalysisEnv)
    (repository : RepoRec) (s : ASt) (hrun : s.job.status = .running) :
    (∀ e, (tryAnalysisTail cfg env repository s).1 = .error e →
        (tryAnalysisTail cfg env repository s).2.job.status = .running) ∧
    (∀ j, (tryAnalysisTail cfg env repository s).1 = .ok j →
        j.status = .completed ∧ (tryAnalysisTail cfg env repository s).2.job = j) := by
  cases hclone : env.cloneResult with
  | error e0 =>
    have hbody : tryAnalysisTail cfg env repository s =
        (.error e0, ASt.mk s.job s.repoStore s.covDeleted s.savedFiles true s.cleaned) := by
      simp [tryAnalysisTail, run_bind, run_pModify, run_pLift, hclone]
    rw [hbody]
    exact ⟨fun _ _ => hrun, fun j hj => absurd hj (by simp)⟩
  | ok u0 =>
    cases hpi : env.projectInfo with
    | some pi0 =>
      cases hinst : env.installResult with
      | error e1 =>
        have hbody : tryAnalysisTail cfg env repository s =
            (.error e1, ASt.mk { s.job with progress := 20 } s.repoStore s.covDeleted
              s.savedFiles true s.cleaned) := by
          simp [tryAnalysisTail, run_bind, run_pModify, run_pLift, run_jobDoA,
            Job.updateProgress, hrun, hclone, hpi, hinst]
        rw [hbody]
        exact ⟨fun _ _ => hrun, fun j hj => absurd hj (by simp)⟩
      | ok u1 =>
        cases hrt : env.runTestsResult with
        | error e2 =>
          have hbody : tryAnalysisTail cfg env repository s =
              (.error e2, ASt.mk { s.job with progress := 40 } s.repoStore s.covDeleted
                s.savedFiles true s.cleaned) := by
            simp [tryAnalysisTail, run_bind, run_pModify, run_pLift, run_jobDoA,
              Job.updateProgress, hrun, hclone, hpi, hinst, hrt]
          rw [hbody]
          exact ⟨fun _ _ => hrun, fun j hj => absurd hj (by simp)⟩
        | ok u2 =>
          rcases hsrf : saveReportFiles cfg repository.id pi0.1
              (buildFinalReport (findAllTypeScriptFiles env.checkout) env.parsedReport).files
              (ASt.mk { s.job with status := JobStatusV.running, progress := 80 } s.repoStore
                (some repository.id) [] true s.cleaned) with ⟨rs, sY⟩
          have hjobY : sY.job = { s.job with status := JobStatusV.running, progress := 80 } := by
            have h := saveReportFiles_job cfg repository.id pi0.1
              (buildFinalReport (findAllTypeScriptFiles env.checkout) env.parsedReport).files
              (ASt.mk { s.job with status := JobStatusV.running, progress := 80 } s.repoStore
                (some repository.id) [] true s.cleaned)
            rw [hsrf] at h
            exact h
          have hrunY : sY.job.status = .running := by rw [hjobY]
          cases rs with
          | error e3 =>
            have hbody : tryAnalysisTail cfg env repository s = (.error e3, sY) := by
              simp [tryAnalysisTail, run_bind, run_pModify, run_pLift, run_jobDoA,
                Job.updateProgress, hrun, hclone, hpi, hinst, hrt, hsrf]
            rw [hbody]
            exact ⟨fun _ _ => hrunY, fun j hj => absurd hj (by simp)⟩
          | ok n =>
            have hbody : tryAnalysisTail cfg env repository s =
                finishAnalysis repository
                  (buildFinalReport (findAllTypeScriptFiles env.checkout)
                    env.parsedReport).files.length n sY := by
              simp [tryAnalysisTail, run_bind, run_pModify, run_pLift, run_jobDoA,
                Job.updateProgress, hrun, hclone, hpi, hinst, hrt, hsrf]
            rw [hbody]
            exact finishAnalysis_spec repository _ n sY hrunY
    | none =>
      rcases hsrf : saveReportFiles cfg repository.id none
          (buildFinalReport (findAllTypeScriptFiles env.checkout)
            (CoverageReport.mk [] 0)).files
          (ASt.mk { s.job with status := JobStatusV.running, progress := 80 } s.repoStore
            (some repository.id) [] true s.cleaned) with ⟨rs, sY⟩
      have hjobY : sY.job = { s.job with status := JobStatusV.running, progress := 80 } := by
        have h := saveReportFiles_job cfg repository.id none
          (buildFinalReport (findAllTypeScriptFiles env.checkout)
            (CoverageReport.mk [] 0)).files
          (ASt.mk { s.job with status := JobStatusV.running, progress := 80 } s.repoStore
            (some repository.id) [] true s.cleaned)
        rw [hsrf] at h
        exact h
      have hrunY : sY.job.status = .running := by rw [hjobY]
      cases rs with
      | error e3 =>
        have hbody : tryAnalysisTail cfg env repository s = (.error e3, sY) := by
          simp [tryAnalysisTail, run_bind, run_pModify, run_pLift, run_jobDoA,
            Job.updateProgress, hrun, hclone, hpi, hsrf]
        rw [hbody]
        exact ⟨fun _ _ => hrunY, fun j hj => absurd hj (by simp)⟩
      | ok n =>
        have hbody : tryAnalysisTail cfg env repository s =
            finishAnalysis repository
              (buildFinalReport (findAllTypeScriptFiles env.checkout)
                (CoverageReport.mk [] 0)).files.length n sY := by
          simp [tryAnalysisTail, run_bind, run_pModify, run_pLift, run_jobDoA,
            Job.updateProgress, hrun, hclone, hpi, hsrf]
        rw [hbody]
        exact finishAnalysis_spec repository _ n sY hrunY

/-- `tryAnalysis` from a pending job: an error exit leaves the job running,
a normal return yields a completed job. -/
theorem tryAnalysis_spec (cfg : ProcessorConfig) (env : AnalysisEnv) (s0 : ASt)
    (hp : s0.job.status = .pending) :
    (∀ e, (tryAnalysis cfg env s0).1 = .error e →
        (tryAnalysis cfg env s0).2.job.status = .running) ∧
    (∀ j, (tryAnalysis cfg env s0).1 = .ok j →
        j.status = .completed ∧ (tryAnalysis cfg env s0).2.job = j) := by
  have hstart := Job.start_of_pending s0.job hp
  cases hrepo : s0.repoStore s0.job.repositoryId with
  | some r =>
    have heq : tryAnalysis cfg env s0 =
        tryAnalysisTail cfg env r
          (ASt.mk { s0.job with status := JobStatusV.running, progress := 0 } s0.repoStore
            s0.covDeleted s0.savedFiles s0.workspaceCreated s0.cleaned) := by
      rw [tryAnalysis_eq]
      simp [run_bind, run_jobDoA, run_pGet, run_pure, hstart, hrepo]
    rw [heq]
    exact tryAnalysisTail_spec cfg env r _ rfl
  | none =>
    cases hurl : s0.job.repositoryUrl with
    | none =>
      have hbody : tryAnalysis cfg env s0 =
          (.error "Repository not found",
           ASt.mk { s0.job with status := JobStatusV.running, progress := 0 } s0.repoStore
             s0.covDeleted s0.savedFiles s0.workspaceCreated s0.cleaned) := by
        rw [tryAnalysis_eq]
        simp [run_bind, run_jobDoA, run_pGet, run_pThrow, hstart, hrepo, hurl]
      rw [hbody]
      exact ⟨fun _ _ => rfl, fun j hj => absurd hj (by simp)⟩
    | some url =>
      have heq : tryAnalysis cfg env s0 =
          tryAnalysisTail cfg env
            (RepoRec.mk url url (parseGitHubUrl url).1 (parseGitHubUrl url).2
              (s0.job.branch.getD "main") (s0.job.branch.getD "main") false)
            (ASt.mk { s0.job with status := JobStatusV.running, progress := 0 }
              (fun i => if i = url
                then some (RepoRec.mk url url (parseGitHubUrl url).1 (parseGitHubUrl url).2
                  (s0.job.branch.getD "main") (s0.job.branch.getD "main") false)
                else s0.repoStore i)
              s0.covDeleted s0.savedFiles s0.workspaceCreated s0.cleaned) := by
        rw [tryAnalysis_eq]
        simp [run_bind, run_jobDoA, run_pGet, run_pure, run_saveRepo, hstart, hrepo, hurl]
      rw [heq]
      exact tryAnalysisTail_spec cfg env _ _ rfl

/-- `executeAnalysisJob` unfolded to its `try`/`catch`/`finally`
composition. -/
theorem executeAnalysisJob_run (cfg : ProcessorConfig) (env : AnalysisEnv) (job : Job)
    (repos : String → Option RepoRec) :
    executeAnalysisJob cfg env job repos =
      (let r1 := tryAnalysis cfg env
         { job := job, repoStore := repos, covDeleted := none,
           savedFiles := [], workspaceCreated := false, cleaned := false }
       let r2 := match r1.1 with
         | .ok j => (Except.ok j, r1.2)
         | .error msg => catchAnalysis msg r1.2
       (r2.1, { r2.2 with cleaned := r2.2.workspaceCreated })) := rfl

/-- From a pending job, `executeAnalysisJob` always returns `.ok` of a
terminal job (completed, or failed with the message recorded), and the
final state records cleanup exactly when a workspace was created. -/
lemma executeAnalysisJob_boundary (cfg : ProcessorConfig) (env : AnalysisEnv)
    (job : Job) (repos : String → Option RepoRec) (hp : job.status = .pending) :
    (∃ j', (executeAnalysisJob cfg env job repos).1 = .ok j' ∧
      (j'.status = .completed ∨ (j'.status = .failed ∧ j'.error.isSome = true))) ∧
    (executeAnalysisJob cfg env job repos).2.cleaned =
      (executeAnalysisJob cfg env job repos).2.workspaceCreated := by
  obtain ⟨herr, hok⟩ := tryAnalysis_spec cfg env
    { job := job, repoStore := repos, covDeleted := none,
      savedFiles := [], workspaceCreated := false, cleaned := false } hp
  rcases htr : tryAnalysis cfg env
      { job := job, repoStore := repos, covDeleted := none,
        savedFiles := [], workspaceCreated := false, cleaned := false } with ⟨r1, s1⟩
  rw [htr] at herr hok
  dsimp only at herr hok
  cases r1 with
  | ok jj =>
    obtain ⟨hc, -⟩ := hok jj rfl
    have hw : executeAnalysisJob cfg env job repos =
        (Except.ok jj, { s1 with cleaned := s1.workspaceCreated }) := by
      rw [executeAnalysisJob_run]
      simp only [htr]
    rw [hw]
    exact ⟨⟨jj, rfl, Or.inl hc⟩, rfl⟩
  | error msg =>
    have hrun1 : s1.job.status = .running := herr msg rfl
    have hcat := catchAnalysis_spec msg s1 hrun1
    have hw : executeAnalysisJob cfg env job repos =
        (.ok { s1.job with status := .failed, error := some msg },
         ASt.mk { s1.job with status := .failed, error := some msg } s1.repoStore
           s1.covDeleted s1.savedFiles s1.workspaceCreated s1.workspaceCreated) := by
      rw [executeAnalysisJob_run]
      simp only [htr, hcat]
    rw [hw]
    exact ⟨⟨_, rfl, Or.inr ⟨rfl, rfl⟩⟩, rfl⟩

/-- From a pending job with well-formed collaborator outputs,
`executeImprovementJob` always returns `.ok` of a terminal job, and the
final state records cleanup exactly when a workspace was created. -/
lemma executeImprovementJob_boundary (cfg : ProcessorConfig) (env : ImproveEnv)
    (repos : String → Option RepoRec) (job : Job) (store : CovStore)
    (hp : job.status = .pending) (hWFi : improveEnvWF env) (hWFc : covStoreWF store) :
    (∃ j', (executeImprovementJob cfg env repos job store).1 = .ok j' ∧
      (j'.status = .completed ∨ (j'.status = .failed ∧ j'.error.isSome = true))) ∧
    (executeImprovementJob cfg env repos job store).2.cleaned =
      (executeImprovementJob cfg env repos job store).2.workspaceCreated := by
  obtain ⟨htry_cmf, htry_err, htry_ok⟩ := tryImprove_spec cfg env repos
    { job := job, covStore := store, aiCalls := 0, workspaceCreated := false,
      cleaned := false, committedFiles := none, lastReport := none } hp
  rcases hty : tryImprove cfg env repos
      { job := job, covStore := store, aiCalls := 0, workspaceCreated := false,
        cleaned := false, committedFiles := none, lastReport := none } with ⟨r1, s1⟩
  rw [hty] at htry_cmf htry_err htry_ok
  dsimp only at htry_cmf htry_err htry_ok
  cases r1 with
  | ok jj =>
    obtain ⟨hc, -⟩ := htry_ok jj rfl
    have hw : executeImprovementJob cfg env repos job store =
        (Except.ok jj, { s1 with cleaned := s1.workspaceCreated }) := by
      rw [executeImprovementJob_run]
      simp only [hty]
    rw [hw]
    exact ⟨⟨jj, rfl, Or.inl hc⟩, rfl⟩
  | error msg =>
    obtain ⟨hst12, -, hWFrun⟩ := htry_err msg rfl
    have hrun1 : s1.job.status = .running := hWFrun hWFi hWFc
    obtain ⟨hc1, hc2, -, -⟩ := catchImprove_spec msg s1 hrun1
    rcases hct : catchImprove msg s1 with ⟨rc, sc⟩
    rw [hct] at hc1 hc2
    dsimp only at hc1 hc2
    have hw : executeImprovementJob cfg env repos job store =
        (rc, { sc with cleaned := sc.workspaceCreated }) := by
      rw [executeImprovementJob_run]
      simp only [hty, hct]
    rw [hw]
    refine ⟨⟨sc.job, hc1, Or.inr ⟨?_, ?_⟩⟩, rfl⟩
    · rw [hc2]
    · simp [hc2]

/-- C9: every stage-level error in either pipeline is caught at the job
boundary and converted into a `fail(message)` transition: one scheduler
tick never propagates an exception — it executes nothing, or returns
`.ok` of a job in a terminal status (completed, or failed with the error
message recorded) — and the final state records workspace cleanup exactly
when a workspace was created, on success and failure paths alike. -/
theorem c9_pipeline_errors_never_escape
    (cfg : ProcessorConfig) (jobs : List Job) (aenv : AnalysisEnv) (ienv : ImproveEnv)
    (repos : String → Option RepoRec) (cov : CovStore)
    (hWFi : improveEnvWF ienv) (hWFc : covStoreWF cov) :
    (∀ r st, processNextJob cfg jobs aenv ienv repos cov = ProcOutcome.ranAnalysis r st →
        (∃ j', r = .ok j' ∧
          (j'.status = .completed ∨ (j'.status = .failed ∧ j'.error.isSome = true))) ∧
        st.cleaned = st.workspaceCreated) ∧
    (∀ r st, processNextJob cfg jobs aenv ienv repos cov = ProcOutcome.ranImprovement r st →
        (∃ j', r = .ok j' ∧
          (j'.status = .completed ∨ (j'.status = .failed ∧ j'.error.isSome = true))) ∧
        st.cleaned = st.workspaceCreated) := by
  cases hsel : selectNextJob jobs with
  | none =>
    have hpn : processNextJob cfg jobs aenv ienv repos cov = .idle := by
      simp [processNextJob, hsel]
    constructor
    · intro r st h
      rw [hpn] at h
      exact absurd h (by simp)
    · intro r st h
      rw [hpn] at h
      exact absurd h (by simp)
  | some j =>
    obtain ⟨⟨rest, hfp⟩, -, -⟩ := selectNextJob_some hsel
    obtain ⟨-, hpend, -⟩ := findPending_head_spec hfp
    cases hjt : j.type with
    | analysis =>
      have hpn : processNextJob cfg jobs aenv ienv repos cov =
          .ranAnalysis (executeAnalysisJob cfg aenv j repos).1
            (executeAnalysisJob cfg aenv j repos).2 := by
        simp [processNextJob, hsel, hjt]
      constructor
      · intro r st h
        rw [hpn] at h
        injection h with h1 h2
        subst h1
        subst h2
        exact executeAnalysisJob_boundary cfg aenv j repos hpend
      · intro r st h
        rw [hpn] at h
        exact absurd h (by simp)
    | improvement =>
      have hpn : processNextJob cfg jobs aenv ienv repos cov =
          .ranImprovement (executeImprovementJob cfg ienv repos j cov).1
            (executeImprovementJob cfg ienv repos j cov).2 := by
        simp [processNextJob, hsel, hjt]
      constructor
      · intro r st h
        rw [hpn] at h
        exact absurd h (by simp)
      · intro r st h
        rw [hpn] at h
        injection h with h1 h2
        subst h1
        subst h2
        exact executeImprovementJob_boundary cfg ienv repos j cov hpend hWFi hWFc

/-- Witness for C9: a tick on a one-job table whose improvement pipeline
fails at the clone stage still returns `.ok` of a failed job with the
message recorded, and cleanup matches workspace creation. -/
theorem c9_pipeline_errors_never_escape_witness :
    (∃ j', (executeImprovementJob defaultConfig sampleEnvFail sampleRepos sampleJob
        sampleStore).1 = .ok j' ∧
      (j'.status = .completed ∨ (j'.status = .failed ∧ j'.error.isSome = true))) ∧
    (executeImprovementJob defaultConfig sampleEnvFail sampleRepos sampleJob
        sampleStore).2.cleaned =
      (executeImprovementJob defaultConfig sampleEnvFail sampleRepos sampleJob
        sampleStore).2.workspaceCreated :=
  (c9_pipeline_errors_never_escape defaultConfig [sampleJob] sampleAEnv sampleEnvFail
      sampleRepos sampleStore
      (by
        intro i
        refine ⟨?_, show (0 : ℤ) ≤ 9000 by decide, show (9000 : ℤ) ≤ 10000 by decide⟩
        intro fc hfc
        simp [sampleEnvFail, sampleEnv, sampleAttempt, sampleReport] at hfc
        rw [hfc]
        exact ⟨by decide, by decide⟩)
      (by
        intro i cf h
        dsimp only [sampleStore] at h
        split at h
        next heq =>
          injection h with h2
          rw [← h2]
          exact ⟨by decide, by decide⟩
        next heq => exact absurd h (by simp))).2
    (executeImprovementJob defaultConfig sampleEnvFail sampleRepos sampleJob sampleStore).1
    (executeImprovementJob defaultConfig sampleEnvFail sampleRepos sampleJob sampleStore).2
    rfl
